import Mathlib

/-!
# GPU metrics of the Slurm exporter (`gpus.go`, `main.go`)

A shallow embedding of the GPU parsing and aggregation code of the exporter,
of the cluster-resolution loop of `main`, and of the Go library functions
they call (`strings.Split`, `strings.Trim`, `strings.Fields`,
`strings.HasPrefix`, `strconv.ParseFloat`, `float64` arithmetic).

Modelling conventions
* A Go `string` is the list of its Unicode code points (`GoString`); command
  output is taken to be valid UTF-8.
* A `float64` is an IEEE 754 binary64 value (`F64`): NaN, a signed infinity,
  or a signed `m * 2 ^ e` in canonical form.  Arithmetic rounds the exact
  result to nearest, ties to even.
* A run-time panic (index out of range) and `log.Fatal` end the process; a
  function that can end the process returns `Except Crash _`.  `Collect`,
  which sends values before it can end the process, returns the values sent
  together with how it ends.
* External commands are answered by a world `W` that each call may change.
-/

namespace SlurmExporter

/-! ## Go strings -/

/-- Go `string`: the sequence of its code points. -/
abbrev GoString := List Char

/-- The double-quote character `"` (U+0022). -/
def dquote : Char := Char.ofNat 34

/-- The newline character (U+000A). -/
def newline : Char := Char.ofNat 10

/-- Go `strings.Split(s, sep)` for a one-character separator: the pieces of
`s` between the occurrences of `sep`; always at least one piece. -/
def strings.Split (s : GoString) (sep : Char) : List GoString :=
  match s with
  | [] => [[]]
  | c :: cs =>
    if c = sep then [] :: strings.Split cs sep
    else
      match strings.Split cs sep with
      | [] => [[c]]
      | piece :: rest => (c :: piece) :: rest

/-- Go `strings.TrimLeft(s, cutset)` for a one-character cutset. -/
def strings.TrimLeft (s : GoString) (cut : Char) : GoString :=
  s.dropWhile (fun c => decide (c = cut))

/-- Go `strings.TrimRight(s, cutset)` for a one-character cutset. -/
def strings.TrimRight (s : GoString) (cut : Char) : GoString :=
  (s.reverse.dropWhile (fun c => decide (c = cut))).reverse

/-- Go `strings.Trim(s, cutset)` for a one-character cutset: all leading and
trailing occurrences of the character removed. -/
def strings.Trim (s : GoString) (cut : Char) : GoString :=
  strings.TrimRight (strings.TrimLeft s cut) cut

/-- Go `strings.HasPrefix(s, prefix)`. -/
def strings.HasPrefix (s pre : GoString) : Bool :=
  match pre, s with
  | [], _ => true
  | _ :: _, [] => false
  | p :: ps, c :: cs => decide (c = p) && strings.HasPrefix cs ps

/-- Go `unicode.IsSpace`: the code points with the White_Space property. -/
def unicode.IsSpace (c : Char) : Bool :=
  let n := c.toNat
  (9 ≤ n && n ≤ 13) || n = 32 || n = 0x85 || n = 0xA0 || n = 0x1680 ||
  (0x2000 ≤ n && n ≤ 0x200A) || n = 0x2028 || n = 0x2029 || n = 0x202F ||
  n = 0x205F || n = 0x3000

/-- Loop of `strings.Fields`: `cur` is the field being read, in reverse. -/
def strings.FieldsAux : GoString → GoString → List GoString
  | [], cur => if cur = [] then [] else [cur.reverse]
  | c :: cs, cur =>
    if unicode.IsSpace c then
      if cur = [] then strings.FieldsAux cs []
      else cur.reverse :: strings.FieldsAux cs []
    else strings.FieldsAux cs (c :: cur)

/-- Go `strings.Fields(s)`: the maximal runs of non-space code points. -/
def strings.Fields (s : GoString) : List GoString :=
  strings.FieldsAux s []

/-! ## float64 -/

/-- IEEE 754 binary64.  `fin neg m e` is `(-1)^neg * m * 2^e`, canonical when
`m < 2^53`, `-1074 ≤ e ≤ 971` and (`2^52 ≤ m` or `e = -1074`); zero is
`fin neg 0 (-1074)`.  All NaNs are identified. -/
inductive F64 where
  | nan : F64
  | inf (neg : Bool) : F64
  | fin (neg : Bool) (m : Nat) (e : Int) : F64
  deriving DecidableEq, Repr

namespace F64

/-- Positive zero, the Go literal `0.0`. -/
def zero : F64 := fin false 0 (-1074)

instance : Inhabited F64 := ⟨zero⟩

/-- Number of binary digits of `n` added to `acc`, by halving at most `fuel`
times. -/
def bitLenAux : Nat → Nat → Nat → Nat
  | 0, _, acc => acc
  | fuel + 1, n, acc => if n = 0 then acc else bitLenAux fuel (n / 2) (acc + 1)

/-- Number of binary digits of `n` (`0` for `0`). -/
def bitLen (n : Nat) : Nat := bitLenAux n n 0

/-- The integer nearest to `n / d`, a tie going to the even one. -/
def rneDiv (n d : Nat) : Nat :=
  let q := n / d
  let r := n % d
  if 2 * r < d then q
  else if 2 * r = d then (if q % 2 = 0 then q else q + 1)
  else q + 1

/-- Numerator of `(n / d) / 2 ^ e`. -/
def scaleNum (n : Nat) (e : Int) : Nat := n * 2 ^ (-e).toNat

/-- Denominator of `(n / d) / 2 ^ e`. -/
def scaleDen (d : Nat) (e : Int) : Nat := d * 2 ^ e.toNat

/-- The exponent `e` with `2^52 ≤ (n / d) / 2^e < 2^53`, but at least `-1074`
(`0 < n`, `0 < d`). -/
def expOf (n d : Nat) : Int :=
  let k : Int := (bitLen n : Int) - (bitLen d : Int)
  let l : Int := if scaleDen d k ≤ scaleNum n k then k else k - 1
  max (l - 52) (-1074)

/-- Round the positive rational `n / d` to binary64, nearest-even, with the
given sign (`0 < n`, `0 < d`). -/
def round (neg : Bool) (n d : Nat) : F64 :=
  let e := expOf n d
  let m := rneDiv (scaleNum n e) (scaleDen d e)
  if m = 2 ^ 53 then
    if e + 1 > 971 then inf neg else fin neg (2 ^ 52) (e + 1)
  else if e > 971 then inf neg
  else fin neg m e

/-- The float of the integer `m * 2 ^ e`-multiple `z * 2 ^ e`; an exact zero
takes the sign `zneg`. -/
def ofScaled (z : Int) (e : Int) (zneg : Bool) : F64 :=
  if z = 0 then fin zneg 0 (-1074)
  else round (decide (z < 0)) (scaleNum z.natAbs (-e)) (scaleDen 1 (-e))

/-- Signed integer mantissa of a finite float at the exponent `e ≤ its own`. -/
def mantAt (neg : Bool) (m : Nat) (own e : Int) : Int :=
  let a : Int := (m * 2 ^ (own - e).toNat : Nat)
  if neg then -a else a

/-- Go `x + y` on float64. -/
def add : F64 → F64 → F64
  | nan, _ => nan
  | _, nan => nan
  | inf a, inf b => if a = b then inf a else nan
  | inf a, fin _ _ _ => inf a
  | fin _ _ _, inf b => inf b
  | fin a m e, fin b n f =>
    let g := min e f
    ofScaled (mantAt a m e g + mantAt b n f g) g (a && b)

/-- Go unary `-x` on float64. -/
def neg : F64 → F64
  | nan => nan
  | inf a => inf (!a)
  | fin a m e => fin (!a) m e

/-- Go `x - y` on float64. -/
def sub (x y : F64) : F64 := add x (neg y)

/-- Go `x / y` on float64 (no panic: a zero divisor gives NaN or an
infinity). -/
def div : F64 → F64 → F64
  | nan, _ => nan
  | _, nan => nan
  | inf _, inf _ => nan
  | inf a, fin b _ _ => inf (xor a b)
  | fin a _ _, inf b => fin (xor a b) 0 (-1074)
  | fin a m e, fin b n f =>
    if n = 0 then
      if m = 0 then nan else inf (xor a b)
    else if m = 0 then fin (xor a b) 0 (-1074)
    else round (xor a b) (scaleNum m (f - e)) (scaleDen n (f - e))

/-- The value is a NaN (Go `math.IsNaN`). -/
def isNaN : F64 → Bool
  | nan => true
  | _ => false

/-- The value is neither a NaN nor an infinity. -/
def isFinite : F64 → Bool
  | fin _ _ _ => true
  | _ => false

/-- Go `x <= y` on float64: false when an operand is NaN; `-0 <= +0` and
`+0 <= -0` both hold. -/
def le : F64 → F64 → Bool
  | nan, _ => false
  | _, nan => false
  | inf a, inf b => a || !b
  | inf a, fin _ _ _ => a
  | fin _ _ _, inf b => !b
  | fin a m e, fin b n f =>
    let g := min e f
    decide (mantAt a m e g ≤ mantAt b n f g)

/-- Go `x < y` on float64. -/
def lt (x y : F64) : Bool := le x y && !le y x

/-- The float64 nearest to the natural number `n`. -/
def ofNat (n : Nat) : F64 := ofScaled n 0 false

end F64

/-! ## strconv.ParseFloat

`strconv.ParseFloat(s, 64)` after the Go library (`atof.go`, Go 1.13 and
later: hexadecimal floats and digit-separating underscores are accepted):
`special`, `readFloat`, `underscoreOK` and the conversion of the digits read.  The Go
code keeps 19 digits of the mantissa and a `trunc` flag and re-reads the
digits when they do not decide the rounding; the float it returns is the
binary64 nearest to the decimal that was read.  The model keeps every digit
and rounds once. -/

/-- The `Err` of a Go `*strconv.NumError`. -/
inductive NumError where
  | ErrSyntax : NumError
  | ErrRange : NumError
  deriving DecidableEq, Repr

namespace strconv

/-- Go `lower(c)`, `c | ('x' - 'X')` on a byte; bytes of a multi-byte code
point stay outside ASCII. -/
def lower (c : Char) : Char :=
  if c.toNat < 128 then Char.ofNat (c.toNat ||| 32) else c

/-- The test `'0' <= c && c <= '9'`. -/
def isDigit (c : Char) : Bool := decide ('0' ≤ c) && decide (c ≤ '9')

/-- The test `'a' <= lower(c) && lower(c) <= 'f'`. -/
def isHexLetter (c : Char) : Bool :=
  decide ('a' ≤ lower c) && decide (lower c ≤ 'f')

/-- Go `commonPrefixLenIgnoreCase(s, prefix)`, `prefix` in lower case. -/
def commonPrefixLenIgnoreCase : GoString → GoString → Nat
  | c :: cs, p :: ps =>
    let c1 := if 'A' ≤ c ∧ c ≤ 'Z' then Char.ofNat (c.toNat + 32) else c
    if c1 = p then commonPrefixLenIgnoreCase cs ps + 1 else 0
  | _, _ => 0

/-- Length of the `inf` or `infinity` that starts `s`, if one does. -/
def infLen (s : GoString) : Option Nat :=
  let n := commonPrefixLenIgnoreCase s ['i', 'n', 'f', 'i', 'n', 'i', 't', 'y']
  let n := if 3 < n ∧ n < 8 then 3 else n
  if n = 3 ∨ n = 8 then some n else none

/-- Go `special(s)`: a leading infinity or NaN and the number of bytes it
takes. -/
def special (s : GoString) : Option (F64 × Nat) :=
  match s with
  | [] => none
  | c :: cs =>
    if c = '+' ∨ c = '-' then
      (infLen cs).map (fun n => (F64.inf (decide (c = '-')), 1 + n))
    else if c = 'i' ∨ c = 'I' then
      (infLen s).map (fun n => (F64.inf false, n))
    else if c = 'n' ∨ c = 'N' then
      if commonPrefixLenIgnoreCase s ['n', 'a', 'n'] = 3 then some (F64.nan, 3)
      else none
    else none

/-- Variables of the digit loop of `readFloat`. -/
structure ReadState where
  mantissa : Nat
  nd : Nat
  dp : Int
  sawdot : Bool
  sawdigits : Bool
  underscores : Bool
  deriving DecidableEq, Repr

/-- The digit loop of `readFloat` (label `loop`): returns the state and the
unread rest. -/
def readDigits (hex : Bool) : GoString → ReadState → ReadState × GoString
  | [], st => (st, [])
  | c :: cs, st =>
    if c = '_' then readDigits hex cs { st with underscores := true }
    else if c = '.' then
      if st.sawdot then (st, c :: cs)
      else readDigits hex cs { st with sawdot := true, dp := st.nd }
    else if isDigit c then
      if c = '0' ∧ st.nd = 0 then
        readDigits hex cs { st with sawdigits := true, dp := st.dp - 1 }
      else
        readDigits hex cs { st with
          sawdigits := true
          nd := st.nd + 1
          mantissa := st.mantissa * (if hex then 16 else 10) + (c.toNat - 48) }
    else if hex && isHexLetter c then
      readDigits hex cs { st with
        sawdigits := true
        nd := st.nd + 1
        mantissa := st.mantissa * 16 + ((lower c).toNat - 97 + 10) }
    else (st, c :: cs)

/-- The exponent digit loop of `readFloat`: `e` stops growing at 10000. -/
def readExp : GoString → Nat → Bool → Nat × Bool × GoString
  | [], e, us => (e, us, [])
  | c :: cs, e, us =>
    if c = '_' then readExp cs e true
    else if isDigit c then
      readExp cs (if e < 10000 then e * 10 + (c.toNat - 48) else e) us
    else (e, us, c :: cs)

/-- The loop of `underscoreOK`; `saw` is the last kind of character seen. -/
def underscoreLoop (hex : Bool) : GoString → Char → Bool
  | [], saw => saw != '_'
  | c :: cs, saw =>
    if isDigit c || (hex && isHexLetter c) then underscoreLoop hex cs '0'
    else if c = '_' then
      if saw != '0' then false else underscoreLoop hex cs '_'
    else if saw = '_' then false
    else underscoreLoop hex cs '!'

/-- Go `underscoreOK(s)`: every underscore separates two digits, or a base
prefix and a digit. -/
def underscoreOK (s : GoString) : Bool :=
  let s :=
    match s with
    | c :: cs => if c = '-' ∨ c = '+' then cs else s
    | [] => s
  match s with
  | c0 :: c1 :: rest =>
    if c0 = '0' ∧ (lower c1 = 'b' ∨ lower c1 = 'o' ∨ lower c1 = 'x') then
      underscoreLoop (decide (lower c1 = 'x')) rest '0'
    else underscoreLoop false s '^'
  | _ => underscoreLoop false s '^'

/-- What `readFloat` returns when `ok`: the number is
`(-1)^neg * mantissa * base^exp` with base 2 when `hex`, else 10; `n` bytes
were read. -/
structure ReadResult where
  mantissa : Nat
  exp : Int
  neg : Bool
  hex : Bool
  n : Nat
  deriving DecidableEq, Repr

/-- The optional sign of `readFloat`: what follows it. -/
def afterSign (s : GoString) : GoString :=
  match s with
  | c :: cs => if c = '+' ∨ c = '-' then cs else s
  | [] => []

/-- The base prefix test of `readFloat`:
`i+2 < len(s) && s[i] == '0' && lower(s[i+1]) == 'x'`. -/
def hasHexPrefix (s : GoString) : Bool :=
  match s with
  | a :: b :: _ :: _ => decide (a = '0') && decide (lower b = 'x')
  | _ => false

/-- The optional exponent of `readFloat`, read from `s` with the decimal
point at `dp`: the moved decimal point, whether an underscore was seen, and
the unread rest; `none` where `readFloat` returns not `ok`. -/
def readExponent (hex : Bool) (s : GoString) (dp : Int) (us : Bool) :
    Option (Int × Bool × GoString) :=
  match s with
  | c :: s4 =>
    if lower c = (if hex then 'p' else 'e') then
      match s4 with
      | [] => none
      | d :: s5 =>
        let esign : Int := if d = '-' then -1 else 1
        let s6 := if d = '+' ∨ d = '-' then s5 else s4
        match s6 with
        | [] => none
        | f :: _ =>
          if !isDigit f then none
          else
            let (e, us1, rest) := readExp s6 0 us
            some (dp + (e : Int) * esign, us1, rest)
    else if hex then none
    else some (dp, us, s)
  | [] => if hex then none else some (dp, us, [])

/-- Go `readFloat(s)`; `none` when not `ok`. -/
def readFloat (s : GoString) : Option ReadResult :=
  match s with
  | [] => none
  | c0 :: _ =>
    let neg := decide (c0 = '-')
    let s1 := afterSign s
    let hex := hasHexPrefix s1
    let s2 := if hex then s1.drop 2 else s1
    let (st, s3) := readDigits hex s2
      { mantissa := 0, nd := 0, dp := 0, sawdot := false, sawdigits := false,
        underscores := false }
    if !st.sawdigits then none
    else
      let dp0 : Int := if st.sawdot then st.dp else st.nd
      let dp1 : Int := if hex then dp0 * 4 else dp0
      let ndMant : Int := if hex then (st.nd : Int) * 4 else st.nd
      match readExponent hex s3 dp1 st.underscores with
      | none => none
      | some (dp, us, rest) =>
        let n := s.length - rest.length
        if us && !underscoreOK (s.take n) then none
        else
          some { mantissa := st.mantissa
                 exp := if st.mantissa = 0 then 0 else dp - ndMant
                 neg := neg, hex := hex, n := n }

/-- The binary64 nearest to what `readFloat` read (`atofHex`, or the decimal
conversion). -/
def toFloat (r : ReadResult) : F64 :=
  if r.mantissa = 0 then F64.fin r.neg 0 (-1074)
  else if r.hex then
    F64.round r.neg (F64.scaleNum r.mantissa (-r.exp)) (F64.scaleDen 1 (-r.exp))
  else
    F64.round r.neg (r.mantissa * 10 ^ r.exp.toNat) (10 ^ (-r.exp).toNat)

/-- Go `strconv.ParseFloat(s, 64)`: the float and the error.  A syntax error
comes with the float `0`, a range error with an infinity. -/
def ParseFloat (s : GoString) : F64 × Option NumError :=
  match special s with
  | some (v, n) =>
    if n = s.length then (v, none) else (F64.zero, some NumError.ErrSyntax)
  | none =>
    match readFloat s with
    | none => (F64.zero, some NumError.ErrSyntax)
    | some r =>
      if r.n ≠ s.length then (F64.zero, some NumError.ErrSyntax)
      else
        let f := toFloat r
        (f, if f.isFinite then none else some NumError.ErrRange)

end strconv

/-! ## The process and its environment -/

/-- How the process ends before a function returns. -/
inductive Crash where
  /-- The call `log.Fatal(err)` or `log.Fatalf(...)`, with the message logged. -/
  | fatal (msg : GoString) : Crash
  /-- The run-time panic `index out of range [i] with length n`. -/
  | indexOutOfRange (i n : Nat) : Crash
  deriving DecidableEq, Repr

deriving instance DecidableEq for Except

/-- The operating system as `Execute` sees it: running `command arguments...`
to completion in the world `w` gives the captured standard output, or the
error of `StdoutPipe`, `Start` or `Wait`, and the world afterwards. -/
abbrev SystemRun (W : Type) :=
  GoString → List GoString → W → Except GoString GoString × W

/-- Function `Execute` (gpus.go:95): the standard output of the command;
`log.Fatal` on any error. -/
def Execute {W : Type} (sys : SystemRun W) (command : GoString)
    (arguments : List GoString) (w : W) : Except Crash (GoString × W) :=
  match sys command arguments w with
  | (Except.ok out, w1) => Except.ok (out, w1)
  | (Except.error err, _) => Except.error (Crash.fatal err)

/-- Struct `ClusterInfo` (main.go:29). -/
structure ClusterInfo where
  name : GoString
  cmdargs : List GoString
  deriving DecidableEq, Repr

/-- Struct `GPUsMetrics` (gpus.go:27). -/
structure GPUsMetrics where
  alloc : F64
  idle : F64
  total : F64
  utilization : F64
  deriving DecidableEq, Repr

/-! ## map[string]float64 -/

/-- Go `map[string]float64`: its entries, each key once, in the order the
keys were first assigned. -/
abbrev GPUMap := List (GoString × F64)

/-- The lookup `v, ok := m[k]`. -/
def GPUMap.lookup (m : GPUMap) (k : GoString) : Option F64 :=
  match m with
  | [] => none
  | (k1, v) :: rest => if k1 = k then some v else GPUMap.lookup rest k

/-- The expression `m[k]`: the zero value `0` for a missing key. -/
def GPUMap.get (m : GPUMap) (k : GoString) : F64 :=
  (GPUMap.lookup m k).getD F64.zero

/-- The assignment `m[k] = v`. -/
def GPUMap.set (m : GPUMap) (k : GoString) (v : F64) : GPUMap :=
  match m with
  | [] => [(k, v)]
  | (k1, v1) :: rest =>
    if k1 = k then (k1, v) :: rest else (k1, v1) :: GPUMap.set rest k v

/-- The statement `m[k] += v`. -/
def GPUMap.addTo (m : GPUMap) (k : GoString) (v : F64) : GPUMap :=
  GPUMap.set m k (F64.add (GPUMap.get m k) v)

/-! ## gpus.go -/

/-- The sentinel `"board:"`. -/
def boardSentinel : GoString := ['b', 'o', 'a', 'r', 'd', ':']

/-- The indexing `xs[i]`, a panic when `i` is out of range. -/
def index (xs : List GoString) (i : Nat) : Except Crash GoString :=
  match xs.get? i with
  | some x => Except.ok x
  | none => Except.error (Crash.indexOutOfRange i xs.length)

/-- Lines 48-52 (and 71-75): split the descriptor at `:`, read the type and
the count, add the count to the total and to the type. -/
def addBoard (st : GPUMap × F64) (descriptor : GoString) :
    Except Crash (GPUMap × F64) :=
  let boardinfo := strings.Split descriptor ':'
  match index boardinfo 1 with
  | Except.error c => Except.error c
  | Except.ok btype =>
    match index boardinfo 2 with
    | Except.error c => Except.error c
    | Except.ok token =>
      let job_gpus := (strconv.ParseFloat token).1
      Except.ok (GPUMap.addTo st.1 btype job_gpus, F64.add st.2 job_gpus)

/-- Body of the loop of `ParseAllocatedGPUs` (lines 46-53). -/
def allocatedLine (st : GPUMap × F64) (line : GoString) :
    Except Crash (GPUMap × F64) :=
  let line := strings.Trim line dquote
  if strings.HasPrefix line boardSentinel then addBoard st line
  else Except.ok st

/-- Body of the loop of `ParseTotalGPUs` (lines 68-76). -/
def totalLine (st : GPUMap × F64) (line : GoString) :
    Except Crash (GPUMap × F64) :=
  let line := strings.Trim line dquote
  let fields := strings.Fields line
  match fields with
  | _ :: field1 :: _ =>
    if strings.HasPrefix field1 boardSentinel then addBoard st field1
    else Except.ok st
  | _ => Except.ok st

/-- A `for _, line := range lines` loop with the given body. -/
def forLines (body : GPUMap × F64 → GoString → Except Crash (GPUMap × F64)) :
    List GoString → GPUMap × F64 → Except Crash (GPUMap × F64)
  | [], st => Except.ok st
  | line :: rest, st =>
    match body st line with
    | Except.error c => Except.error c
    | Except.ok st1 => forLines body rest st1

/-- Function `ParseAllocatedGPUs` from line 44 on: the breakdown and the
total read from the output of `sacct`. -/
def allocatedOfOutput (output : GoString) : Except Crash (GPUMap × F64) :=
  if output.length > 0 then
    forLines allocatedLine (strings.Split output newline) ([], F64.zero)
  else Except.ok ([], F64.zero)

/-- Function `ParseTotalGPUs` from line 66 on: the breakdown and the total
read from the output of `sinfo`. -/
def totalOfOutput (output : GoString) : Except Crash (GPUMap × F64) :=
  if output.length > 0 then
    forLines totalLine (strings.Split output newline) ([], F64.zero)
  else Except.ok ([], F64.zero)

/-- The arguments that `ParseAllocatedGPUs` gives to `sacct` (line 42). -/
def sacctArgs (cluster : ClusterInfo) : List GoString :=
  cluster.cmdargs ++ ["-a".toList, "-X".toList, "--format=AllocTRES".toList,
    "--state=RUNNING".toList, "--noheader".toList, "--parsable2".toList]

/-- The arguments that `ParseTotalGPUs` gives to `sinfo` (line 64). -/
def sinfoArgs (cluster : ClusterInfo) : List GoString :=
  cluster.cmdargs ++ ["-h".toList, "-o \"%n %G\"".toList]

/-- Function `ParseAllocatedGPUs` (gpus.go:38). -/
def ParseAllocatedGPUs {W : Type} (sys : SystemRun W) (cluster : ClusterInfo)
    (w : W) : Except Crash ((GPUMap × F64) × W) :=
  match Execute sys "sacct".toList (sacctArgs cluster) w with
  | Except.error c => Except.error c
  | Except.ok (output, w1) =>
    match allocatedOfOutput output with
    | Except.error c => Except.error c
    | Except.ok r => Except.ok (r, w1)

/-- Function `ParseTotalGPUs` (gpus.go:60). -/
def ParseTotalGPUs {W : Type} (sys : SystemRun W) (cluster : ClusterInfo)
    (w : W) : Except Crash ((GPUMap × F64) × W) :=
  match Execute sys "sinfo".toList (sinfoArgs cluster) w with
  | Except.error c => Except.error c
  | Except.ok (output, w1) =>
    match totalOfOutput output with
    | Except.error c => Except.error c
    | Except.ok r => Except.ok (r, w1)

/-- Lines 87-90 of `ParseGPUsMetrics`: the snapshot of the two totals. -/
def metricsOfTotals (total_gpus total_alloc : F64) : GPUsMetrics :=
  { alloc := total_alloc
    idle := F64.sub total_gpus total_alloc
    total := total_gpus
    utilization := F64.div total_alloc total_gpus }

/-- Function `ParseGPUsMetrics` (gpus.go:83). -/
def ParseGPUsMetrics {W : Type} (sys : SystemRun W) (cluster : ClusterInfo)
    (w : W) : Except Crash (GPUsMetrics × W) :=
  match ParseTotalGPUs sys cluster w with
  | Except.error c => Except.error c
  | Except.ok ((_, total_gpus), w1) =>
    match ParseAllocatedGPUs sys cluster w1 with
    | Except.error c => Except.error c
    | Except.ok ((_, total_alloc), w2) =>
      Except.ok (metricsOfTotals total_gpus total_alloc, w2)

/-- Function `GPUsGetMetrics` (gpus.go:34). -/
def GPUsGetMetrics {W : Type} (sys : SystemRun W) (cluster : ClusterInfo)
    (w : W) : Except Crash (GPUsMetrics × W) :=
  ParseGPUsMetrics sys cluster w

/-- A `prometheus.Desc` as `prometheus.NewDesc(fqName, help, labels, nil)`
makes it. -/
structure Desc where
  fqName : GoString
  help : GoString
  variableLabels : List GoString
  deriving DecidableEq, Repr

/-- A gauge as `prometheus.MustNewConstMetric(desc, prometheus.GaugeValue,
value, labelValues...)` makes it. -/
structure Metric where
  desc : Desc
  value : F64
  labelValues : List GoString
  deriving DecidableEq, Repr

/-- Struct `GPUsCollector` (gpus.go:127). -/
structure GPUsCollector where
  alloc : Desc
  idle : Desc
  total : Desc
  utilization : Desc
  deriving DecidableEq, Repr

/-- Function `NewGPUsCollector` (gpus.go:117). -/
def NewGPUsCollector : GPUsCollector :=
  let labels := ["cluster".toList]
  { alloc := ⟨"slurm_gpus_alloc".toList, "Allocated GPUs".toList, labels⟩
    idle := ⟨"slurm_gpus_idle".toList, "Idle GPUs".toList, labels⟩
    total := ⟨"slurm_gpus_total".toList, "Total GPUs".toList, labels⟩
    utilization :=
      ⟨"slurm_gpus_utilization".toList, "Total GPU utilization".toList, labels⟩ }

/-- Method `GPUsCollector.Describe` (gpus.go:135): the descriptors sent, in
order. -/
def GPUsCollector.Describe (cc : GPUsCollector) : List Desc :=
  [cc.alloc, cc.idle, cc.total, cc.utilization]

/-- Method `GPUsCollector.Collect` (gpus.go:141) over the global `clusters`:
the metrics sent on the channel, in order, and how the call ends.  It ends
with the world in which it returns, or with the crash that ends the process;
the values of the clusters before the crash have been sent by then. -/
def GPUsCollector.Collect {W : Type} (cc : GPUsCollector) (sys : SystemRun W) :
    List ClusterInfo → W → List Metric × Except Crash W
  | [], w => ([], Except.ok w)
  | c :: rest, w =>
    match GPUsGetMetrics sys c w with
    | Except.error e => ([], Except.error e)
    | Except.ok (cm, w1) =>
      (⟨cc.alloc, cm.alloc, [c.name]⟩ :: ⟨cc.idle, cm.idle, [c.name]⟩ ::
        ⟨cc.total, cm.total, [c.name]⟩ ::
        ⟨cc.utilization, cm.utilization, [c.name]⟩ ::
          (GPUsCollector.Collect cc sys rest w1).1,
        (GPUsCollector.Collect cc sys rest w1).2)

/-! ## main.go -/

/-- The declared value of `allclusters` (main.go:34): `"local"` with a nil
qualifier. -/
def allclusters (c : GoString) : Option (List GoString) :=
  if c = "local".toList then some [] else none

/-- The message of the `log.Fatalf` of line 88. -/
def unknownClusterMsg (c : GoString) : GoString :=
  "Unknown cluster '".toList ++ c ++ "' specified. See --help for list.".toList

/-- The loop of `main` (lines 86-91) over the elements of the flag, appending
to `clusters`; `valid` is the map `allclusters` as a lookup. -/
def resolveLoop (valid : GoString → Option (List GoString)) :
    List GoString → List ClusterInfo → Except Crash (List ClusterInfo)
  | [], clusters => Except.ok clusters
  | c :: rest, clusters =>
    match valid c with
    | none => Except.error (Crash.fatal (unknownClusterMsg c))
    | some cmdargs => resolveLoop valid rest (clusters ++ [⟨c, cmdargs⟩])

/-- What `main` has done when it reaches `http.ListenAndServe` (line 103). -/
structure Serving where
  clusters : List ClusterInfo
  gpusRegistered : Bool
  listenAddress : GoString
  deriving DecidableEq, Repr

/-- Function `main` (main.go:82) up to the call of `http.ListenAndServe`:
`carg` is the value of the flag `clusters`, `valid` the map `allclusters`
after `init`. -/
def main (valid : GoString → Option (List GoString)) (carg : GoString)
    (gpuAcct : Bool) (listenAddress : GoString) : Except Crash Serving :=
  match resolveLoop valid (strings.Split carg ',') [] with
  | Except.error c => Except.error c
  | Except.ok clusters =>
    Except.ok { clusters := clusters, gpusRegistered := gpuAcct,
                listenAddress := listenAddress }

/-! ## Definitions used in the statements -/

/-- A system without state in which `sinfo` prints `inv` and every other
command prints `acct`. -/
def fixedSys (inv acct : GoString) : SystemRun Unit :=
  fun command _ w =>
    if command = "sinfo".toList then (Except.ok inv, w) else (Except.ok acct, w)

/-- The implicit local cluster. -/
def localCluster : ClusterInfo := ⟨"local".toList, []⟩

/-- A second cluster, selected with `-M gpu1`. -/
def gpu1Cluster : ClusterInfo := ⟨"gpu1".toList, ["-M".toList, "gpu1".toList]⟩

/-- A system without state in which a command whose first argument is the
cluster selector `-M` exits with an error, and any other command prints as in
`fixedSys`. -/
def failingSys (inv acct : GoString) : SystemRun Unit :=
  fun command arguments w =>
    if arguments.head? = some "-M".toList then
      (Except.error "exit status 1".toList, w)
    else fixedSys inv acct command arguments w

/-- The cluster of a requested name: the name with the qualifier that the map
holds for it. -/
def clusterOf (valid : GoString → Option (List GoString)) (c : GoString) :
    ClusterInfo :=
  ⟨c, (valid c).getD []⟩

/-- The snapshots of the clusters, taken one after the other in the order of
the list, each in the world the one before left, up to the first that ends
the process; and how the sequence ends: the world after the last snapshot, or
the crash of the snapshot that could not be taken. -/
def snapshots {W : Type} (sys : SystemRun W) :
    List ClusterInfo → W → List GPUsMetrics × Except Crash W
  | [], w => ([], Except.ok w)
  | c :: rest, w =>
    match GPUsGetMetrics sys c w with
    | Except.error e => ([], Except.error e)
    | Except.ok (cm, w1) =>
      (cm :: (snapshots sys rest w1).1, (snapshots sys rest w1).2)

/-- The four values of one cluster: alloc, idle, total, utilization, each
labelled with the name of the cluster. -/
def valuesOf (cc : GPUsCollector) (c : ClusterInfo) (cm : GPUsMetrics) :
    List Metric :=
  [⟨cc.alloc, cm.alloc, [c.name]⟩, ⟨cc.idle, cm.idle, [c.name]⟩,
   ⟨cc.total, cm.total, [c.name]⟩, ⟨cc.utilization, cm.utilization, [c.name]⟩]

/-- The values of the clusters, cluster after cluster. -/
def valuesOfAll (cc : GPUsCollector) :
    List ClusterInfo → List GPUsMetrics → List Metric
  | c :: cs, cm :: cms => valuesOf cc c cm ++ valuesOfAll cc cs cms
  | _, _ => []

/-- The fields of an inventory line: the enclosing double quotes stripped,
then split at white space. -/
def fieldsOf (line : GoString) : List GoString :=
  strings.Fields (strings.Trim line dquote)

/-- The descriptor an inventory line is counted with: its second field, when
the line has at least two fields and the second begins with `board:`. -/
def countedDescriptor (line : GoString) : Option GoString :=
  if 2 ≤ (fieldsOf line).length then
    ((fieldsOf line).get? 1).filter (fun d => strings.HasPrefix d boardSentinel)
  else none

/-- Holds when `ParseAllocatedGPUs` reads the type `t` and the numeric token
`tok` from the line: stripped of its quotes it begins with `board:` and its
second and third parts between colons are `t` and `tok`. -/
def allocatedReads (line t tok : GoString) : Prop :=
  strings.HasPrefix (strings.Trim line dquote) boardSentinel = true ∧
  ∃ b rest, strings.Split (strings.Trim line dquote) ':' = b :: t :: tok :: rest

/-- Holds when `ParseTotalGPUs` reads the type `t` and the numeric token `tok`
from the line: its second field begins with `board:` and the second and third
parts of that field between colons are `t` and `tok`. -/
def totalReads (line t tok : GoString) : Prop :=
  ∃ d, countedDescriptor line = some d ∧
    ∃ b rest, strings.Split d ':' = b :: t :: tok :: rest

/-- An accounting line against its record: `none` for a line that, stripped of
its quotes, does not begin with `board:`; `some (t, c)` for a line of the form
`board:<t>:<c>` with `c` a well-formed number. -/
def lineIs (line : GoString) (r : Option (GoString × GoString)) : Prop :=
  match r with
  | none => strings.HasPrefix (strings.Trim line dquote) boardSentinel = false
  | some (t, c) =>
    strings.Trim line dquote = boardSentinel ++ t ++ ':' :: c ∧ ':' ∉ t ∧
      (strconv.ParseFloat c).2 = none

/-- The type and the count of each matching line, in the order of the lines. -/
def matching (recs : List (Option (GoString × GoString))) : List (GoString × F64) :=
  recs.filterMap (fun r => r.map (fun p => (p.1, (strconv.ParseFloat p.2).1)))

/-- The float64 sum of the counts, added one after the other to `0`. -/
def sumCounts (xs : List F64) : F64 := xs.foldl F64.add F64.zero

/-- The counts of the matching lines of type `t`. -/
def countsOfType (t : GoString) (ms : List (GoString × F64)) : List F64 :=
  (ms.filter (fun p => decide (p.1 = t))).map Prod.snd

/-- The float64 `1`. -/
def F64.one : F64 := F64.fin false (2 ^ 52) (-52)

/-! # Theorems -/

/-! ## Checks of the library models -/

theorem F64_model_checks :
    F64.ofNat 4 = F64.fin false (2 ^ 52) (-50) ∧
    F64.div (F64.ofNat 1) (F64.ofNat 3) = F64.fin false 6004799503160661 (-54) ∧
    F64.add (F64.ofNat (2 ^ 53)) (F64.ofNat 1) = F64.ofNat (2 ^ 53) ∧
    F64.add (F64.ofNat (2 ^ 53)) (F64.ofNat 3) = F64.ofNat (2 ^ 53 + 4) ∧
    F64.sub (F64.ofNat 3) (F64.ofNat 3) = F64.zero ∧
    F64.add (F64.neg F64.zero) (F64.neg F64.zero) = F64.neg F64.zero ∧
    F64.div (F64.ofNat 1) F64.zero = F64.inf false ∧
    F64.div (F64.neg (F64.ofNat 1)) F64.zero = F64.inf true ∧
    F64.sub (F64.inf false) (F64.inf false) = F64.nan ∧
    F64.round false (2 ^ 1024 - 2 ^ 970) 1 = F64.inf false ∧
    F64.round false (2 ^ 1024 - 2 ^ 970 - 1) 1 = F64.fin false (2 ^ 53 - 1) 971 ∧
    F64.round false 1 (2 ^ 1075) = F64.zero ∧
    F64.round false 3 (2 ^ 1076) = F64.fin false 1 (-1074) := by
  refine ⟨?_, ?_, ?_, ?_, ?_, ?_, ?_, ?_, ?_, ?_, ?_, ?_, ?_⟩ <;> decide!

theorem ParseFloat_model_checks :
    strconv.ParseFloat "0.5".toList = (F64.fin false (2 ^ 52) (-53), none) ∧
    strconv.ParseFloat "-1.5e3".toList = (F64.neg (F64.ofNat 1500), none) ∧
    strconv.ParseFloat "1_000".toList = (F64.ofNat 1000, none) ∧
    strconv.ParseFloat "0x1p-2".toList = (F64.fin false (2 ^ 52) (-54), none) ∧
    strconv.ParseFloat "-Inf".toList = (F64.inf true, none) ∧
    strconv.ParseFloat "NaN".toList = (F64.nan, none) ∧
    strconv.ParseFloat "1e-400".toList = (F64.zero, none) ∧
    strconv.ParseFloat "1.7976931348623157e308".toList
      = (F64.fin false (2 ^ 53 - 1) 971, none) ∧
    strconv.ParseFloat "1.7976931348623159e308".toList
      = (F64.inf false, some NumError.ErrRange) ∧
    strconv.ParseFloat "-1e400".toList = (F64.inf true, some NumError.ErrRange) ∧
    strconv.ParseFloat "".toList = (F64.zero, some NumError.ErrSyntax) ∧
    strconv.ParseFloat "4 ".toList = (F64.zero, some NumError.ErrSyntax) ∧
    strconv.ParseFloat "1e".toList = (F64.zero, some NumError.ErrSyntax) ∧
    strconv.ParseFloat "1__0".toList = (F64.zero, some NumError.ErrSyntax) ∧
    strconv.ParseFloat "0x1".toList = (F64.zero, some NumError.ErrSyntax) := by
  refine ⟨?_, ?_, ?_, ?_, ?_, ?_, ?_, ?_, ?_, ?_, ?_, ?_, ?_, ?_, ?_⟩ <;> decide!

theorem strings_model_checks :
    strings.Split [] newline = [[]] ∧
    strings.Split "a,b,,".toList ',' = ["a".toList, "b".toList, [], []] ∧
    strings.Trim "\"\"node1 \"x\"\"".toList dquote = "node1 \"x".toList ∧
    strings.Fields " \tnode1  board:gpu:8 \n".toList
      = ["node1".toList, "board:gpu:8".toList] ∧
    strings.Fields "   ".toList = [] ∧
    strings.HasPrefix "board".toList boardSentinel = false ∧
    strings.HasPrefix "board:".toList boardSentinel = true := by
  refine ⟨?_, ?_, ?_, ?_, ?_, ?_, ?_⟩ <;> decide

/-! ## Running the two parsers -/

theorem ParseTotalGPUs_of_output {W : Type} (sys : SystemRun W)
    (cluster : ClusterInfo) (w w1 : W) (inv : GoString)
    (hinv : sys "sinfo".toList (sinfoArgs cluster) w = (Except.ok inv, w1)) :
    ParseTotalGPUs sys cluster w =
      (match totalOfOutput inv with
       | Except.error c => Except.error c
       | Except.ok r => Except.ok (r, w1)) := by
  simp only [ParseTotalGPUs, Execute, hinv]

theorem ParseAllocatedGPUs_of_output {W : Type} (sys : SystemRun W)
    (cluster : ClusterInfo) (w w1 : W) (acct : GoString)
    (hacct : sys "sacct".toList (sacctArgs cluster) w = (Except.ok acct, w1)) :
    ParseAllocatedGPUs sys cluster w =
      (match allocatedOfOutput acct with
       | Except.error c => Except.error c
       | Except.ok r => Except.ok (r, w1)) := by
  simp only [ParseAllocatedGPUs, Execute, hacct]

theorem ParseGPUsMetrics_of_outputs {W : Type} (sys : SystemRun W)
    (cluster : ClusterInfo) (w w1 w2 : W) (inv acct : GoString)
    (mt ma : GPUMap) (total alloc : F64)
    (hinv : sys "sinfo".toList (sinfoArgs cluster) w = (Except.ok inv, w1))
    (hacct : sys "sacct".toList (sacctArgs cluster) w1 = (Except.ok acct, w2))
    (ht : totalOfOutput inv = Except.ok (mt, total))
    (ha : allocatedOfOutput acct = Except.ok (ma, alloc)) :
    ParseGPUsMetrics sys cluster w =
      Except.ok (metricsOfTotals total alloc, w2) := by
  simp only [ParseGPUsMetrics, ParseTotalGPUs_of_output sys cluster w w1 inv hinv,
    ParseAllocatedGPUs_of_output sys cluster w1 w2 acct hacct, ht, ha]

/-! ## C1 -/

/-- When `sinfo` prints `inv` and `sacct` prints `acct`, and the parsers read
the totals `total` and `alloc` from them, `ParseTotalGPUs` and
`ParseAllocatedGPUs` return these totals and `ParseGPUsMetrics` returns the
snapshot with `alloc`, `total`, `idle = total - alloc` and
`utilization = alloc / total` (float64 operations). -/
theorem ParseGPUsMetrics_snapshot_of_totals {W : Type} (sys : SystemRun W)
    (cluster : ClusterInfo) (w w1 w2 : W) (inv acct : GoString)
    (mt ma : GPUMap) (total alloc : F64)
    (hinv : sys "sinfo".toList (sinfoArgs cluster) w = (Except.ok inv, w1))
    (hacct : sys "sacct".toList (sacctArgs cluster) w1 = (Except.ok acct, w2))
    (ht : totalOfOutput inv = Except.ok (mt, total))
    (ha : allocatedOfOutput acct = Except.ok (ma, alloc)) :
    ParseTotalGPUs sys cluster w = Except.ok ((mt, total), w1) ∧
    ParseAllocatedGPUs sys cluster w1 = Except.ok ((ma, alloc), w2) ∧
    ∃ gm, ParseGPUsMetrics sys cluster w = Except.ok (gm, w2) ∧
      gm.alloc = alloc ∧ gm.total = total ∧
      gm.idle = F64.sub total alloc ∧
      gm.utilization = F64.div alloc total := by
  refine ⟨?_, ?_, metricsOfTotals total alloc, ?_, rfl, rfl, rfl, rfl⟩
  · rw [ParseTotalGPUs_of_output sys cluster w w1 inv hinv, ht]
  · rw [ParseAllocatedGPUs_of_output sys cluster w1 w2 acct hacct, ha]
  · exact ParseGPUsMetrics_of_outputs sys cluster w w1 w2 inv acct mt ma total
      alloc hinv hacct ht ha

/-- The first scenario of the specification: accounting output
`"board:gpu:4"` and inventory output `node1 board:gpu:8"` give alloc = 4,
total = 8, idle = 4 and utilization = 0.5 (`2^52 * 2^-53`); with 2 of 8
allocated, idle is 6 and utilization 0.25. -/
theorem ParseGPUsMetrics_scenarios :
    ParseGPUsMetrics
        (fixedSys "node1 board:gpu:8\"".toList "\"board:gpu:4\"".toList)
        localCluster ()
      = Except.ok (⟨F64.ofNat 4, F64.ofNat 4, F64.ofNat 8,
          F64.fin false (2 ^ 52) (-53)⟩, ()) ∧
    ParseGPUsMetrics
        (fixedSys "node1 board:gpu:8".toList "board:gpu:2".toList)
        localCluster ()
      = Except.ok (⟨F64.ofNat 2, F64.ofNat 6, F64.ofNat 8,
          F64.fin false (2 ^ 52) (-54)⟩, ()) := by
  refine ⟨?_, ?_⟩ <;> decide!

/-- C1: `ParseGPUsMetrics` does not return a snapshot for every pair of
command outputs.  On the inventory output `node1 board:gpu`, and on the
accounting output `board:gpu`, the parser it calls reads `boardinfo[2]` of a
two-element slice and the process ends in the run-time panic
`index out of range [2] with length 2`. -/
theorem C1_short_descriptor_no_snapshot :
    ParseGPUsMetrics
        (fixedSys "node1 board:gpu".toList "board:gpu:4".toList)
        localCluster ()
      = Except.error (Crash.indexOutOfRange 2 2) ∧
    ParseGPUsMetrics
        (fixedSys "node1 board:gpu:8".toList "board:gpu".toList)
        localCluster ()
      = Except.error (Crash.indexOutOfRange 2 2) := by
  refine ⟨?_, ?_⟩ <;> decide!

/-! ## C5 -/

/-- C5: the parsers do abort.  On the accounting output `board:gpu` (and on
`board:`) `ParseAllocatedGPUs` reads `boardinfo[2]` of a two-element slice,
and so does `ParseTotalGPUs` on the inventory line `node1 board:gpu`: the
run-time panic `index out of range [2] with length 2`. -/
theorem C5_short_descriptor_panics :
    allocatedOfOutput "board:gpu".toList
      = Except.error (Crash.indexOutOfRange 2 2) ∧
    allocatedOfOutput "board:".toList
      = Except.error (Crash.indexOutOfRange 2 2) ∧
    totalOfOutput "node1 board:gpu".toList
      = Except.error (Crash.indexOutOfRange 2 2) ∧
    ParseAllocatedGPUs (fixedSys [] "board:gpu".toList) localCluster ()
      = Except.error (Crash.indexOutOfRange 2 2) ∧
    ParseTotalGPUs (fixedSys "node1 board:gpu".toList []) localCluster ()
      = Except.error (Crash.indexOutOfRange 2 2) := by
  refine ⟨by decide, by decide, by decide, by decide, by decide⟩

/-! ## C6 -/

/-- C6: when `sinfo` and `sacct` both print nothing, each parser returns the
empty breakdown and the total `0`, and the snapshot has
total = alloc = idle = 0. -/
theorem C6_empty_outputs {W : Type} (sys : SystemRun W)
    (cluster : ClusterInfo) (w w1 w2 : W)
    (hinv : sys "sinfo".toList (sinfoArgs cluster) w = (Except.ok [], w1))
    (hacct : sys "sacct".toList (sacctArgs cluster) w1 = (Except.ok [], w2)) :
    ParseTotalGPUs sys cluster w = Except.ok (([], F64.zero), w1) ∧
    ParseAllocatedGPUs sys cluster w1 = Except.ok (([], F64.zero), w2) ∧
    ∃ gm, ParseGPUsMetrics sys cluster w = Except.ok (gm, w2) ∧
      gm.total = F64.zero ∧ gm.alloc = F64.zero ∧ gm.idle = F64.zero := by
  have ht : totalOfOutput [] = Except.ok ([], F64.zero) := by decide
  have ha : allocatedOfOutput [] = Except.ok ([], F64.zero) := by decide
  refine ⟨?_, ?_, metricsOfTotals F64.zero F64.zero, ?_, rfl, rfl, ?_⟩
  · rw [ParseTotalGPUs_of_output sys cluster w w1 [] hinv, ht]
  · rw [ParseAllocatedGPUs_of_output sys cluster w1 w2 [] hacct, ha]
  · exact ParseGPUsMetrics_of_outputs sys cluster w w1 w2 [] [] [] []
      F64.zero F64.zero hinv hacct ht ha
  · decide

/-- C6 on the system that prints nothing for both commands. -/
theorem C6_empty_outputs_witness :
    ParseTotalGPUs (fixedSys [] []) localCluster ()
      = Except.ok (([], F64.zero), ()) ∧
    ParseAllocatedGPUs (fixedSys [] []) localCluster ()
      = Except.ok (([], F64.zero), ()) ∧
    ∃ gm, ParseGPUsMetrics (fixedSys [] []) localCluster ()
        = Except.ok (gm, ()) ∧
      gm.total = F64.zero ∧ gm.alloc = F64.zero ∧ gm.idle = F64.zero :=
  C6_empty_outputs (fixedSys [] []) localCluster () () () (by decide) (by decide)

/-! ## C7 -/

/-- C7 as stated fails: with both outputs empty the snapshot is returned, but
its utilization is `0 / 0`, a NaN, not a finite value. -/
theorem C7_counterexample_utilization_not_finite :
    ∃ gm, ParseGPUsMetrics (fixedSys [] []) localCluster ()
        = Except.ok (gm, ()) ∧
      gm.utilization.isFinite = false ∧ gm.utilization.isNaN = true :=
  ⟨metricsOfTotals F64.zero F64.zero, by decide, by decide, by decide⟩

/-- C7 amended: when both outputs are empty `ParseGPUsMetrics` returns a
snapshot (no crash) whose utilization is NaN. -/
theorem C7_empty_outputs_utilization_nan {W : Type} (sys : SystemRun W)
    (cluster : ClusterInfo) (w w1 w2 : W)
    (hinv : sys "sinfo".toList (sinfoArgs cluster) w = (Except.ok [], w1))
    (hacct : sys "sacct".toList (sacctArgs cluster) w1 = (Except.ok [], w2)) :
    ∃ gm, ParseGPUsMetrics sys cluster w = Except.ok (gm, w2) ∧
      gm.utilization = F64.nan := by
  refine ⟨metricsOfTotals F64.zero F64.zero, ?_, by decide⟩
  exact ParseGPUsMetrics_of_outputs sys cluster w w1 w2 [] [] [] []
    F64.zero F64.zero hinv hacct (by decide) (by decide)

/-- C7 amended, on the system that prints nothing for both commands. -/
theorem C7_empty_outputs_utilization_nan_witness :
    ∃ gm, ParseGPUsMetrics (fixedSys [] []) localCluster ()
        = Except.ok (gm, ()) ∧ gm.utilization = F64.nan :=
  C7_empty_outputs_utilization_nan (fixedSys [] []) localCluster () () ()
    (by decide) (by decide)

/-! ## C10 -/

theorem resolveLoop_ok (valid : GoString → Option (List GoString))
    (cs : List GoString) (acc : List ClusterInfo)
    (h : ∀ c ∈ cs, valid c ≠ none) :
    resolveLoop valid cs acc = Except.ok (acc ++ cs.map (clusterOf valid)) := by
  induction cs generalizing acc with
  | nil => simp [resolveLoop]
  | cons c rest ih =>
    have hc : valid c ≠ none := h c (List.mem_cons_self _ _)
    obtain ⟨q, hq⟩ := Option.ne_none_iff_exists'.mp hc
    have hrest : ∀ d ∈ rest, valid d ≠ none :=
      fun d hd => h d (List.mem_cons_of_mem _ hd)
    simp only [resolveLoop, hq]
    rw [ih _ hrest]
    simp [clusterOf, hq]

theorem resolveLoop_error (valid : GoString → Option (List GoString))
    (cs : List GoString) (acc : List ClusterInfo)
    (h : ∃ c ∈ cs, valid c = none) :
    ∃ c ∈ cs, valid c = none ∧
      resolveLoop valid cs acc = Except.error (Crash.fatal (unknownClusterMsg c)) := by
  induction cs generalizing acc with
  | nil => obtain ⟨c, hc, _⟩ := h; simp at hc
  | cons c rest ih =>
    cases hv : valid c with
    | none => exact ⟨c, List.mem_cons_self _ _, hv, by simp [resolveLoop, hv]⟩
    | some q =>
      have hrest : ∃ d ∈ rest, valid d = none := by
        obtain ⟨d, hd, hdv⟩ := h
        rcases List.mem_cons.mp hd with rfl | hd
        · rw [hv] at hdv; cases hdv
        · exact ⟨d, hd, hdv⟩
      obtain ⟨d, hd, hdv, hres⟩ := ih (acc ++ [⟨c, q⟩]) hrest
      exact ⟨d, List.mem_cons_of_mem _ hd, hdv, by simp [resolveLoop, hv, hres]⟩

/-- C10: `main` ends in `log.Fatalf`, without reaching
`http.ListenAndServe`, exactly when some comma-separated element of the flag
is not a key of the map of valid clusters, and the message then names such an
element; otherwise it reaches the server with `clusters` equal to the
requested names in order, each with the qualifier the map holds for it.  With
the declared map, `local` gets the empty qualifier. -/
theorem C10_main_cluster_resolution (valid : GoString → Option (List GoString))
    (carg : GoString) (gpuAcct : Bool) (listenAddress : GoString) :
    ((∃ c ∈ strings.Split carg ',', valid c = none) ↔
      ∃ e, main valid carg gpuAcct listenAddress = Except.error e) ∧
    (∀ e, main valid carg gpuAcct listenAddress = Except.error e →
      ∃ c ∈ strings.Split carg ',', valid c = none ∧
        e = Crash.fatal (unknownClusterMsg c)) ∧
    ((¬ ∃ c ∈ strings.Split carg ',', valid c = none) →
      main valid carg gpuAcct listenAddress =
        Except.ok { clusters := (strings.Split carg ',').map (clusterOf valid)
                    gpusRegistered := gpuAcct
                    listenAddress := listenAddress }) ∧
    main allclusters "local".toList gpuAcct listenAddress =
      Except.ok { clusters := [⟨"local".toList, []⟩]
                  gpusRegistered := gpuAcct
                  listenAddress := listenAddress } := by
  have hok : (¬ ∃ c ∈ strings.Split carg ',', valid c = none) →
      main valid carg gpuAcct listenAddress =
        Except.ok { clusters := (strings.Split carg ',').map (clusterOf valid)
                    gpusRegistered := gpuAcct
                    listenAddress := listenAddress } := by
    intro h
    have h1 : ∀ c ∈ strings.Split carg ',', valid c ≠ none :=
      fun c hc hv => h ⟨c, hc, hv⟩
    simp [main, resolveLoop_ok valid _ [] h1]
  have herr : (∃ c ∈ strings.Split carg ',', valid c = none) →
      ∃ c ∈ strings.Split carg ',', valid c = none ∧
        main valid carg gpuAcct listenAddress
          = Except.error (Crash.fatal (unknownClusterMsg c)) := by
    intro h
    obtain ⟨c, hc, hv, hres⟩ := resolveLoop_error valid _ [] h
    exact ⟨c, hc, hv, by simp [main, hres]⟩
  refine ⟨⟨?_, ?_⟩, ?_, hok, ?_⟩
  · intro h
    obtain ⟨c, _, _, hres⟩ := herr h
    exact ⟨_, hres⟩
  · rintro ⟨e, he⟩
    by_contra hno
    rw [hok hno] at he
    cases he
  · intro e he
    by_cases h : ∃ c ∈ strings.Split carg ',', valid c = none
    · obtain ⟨c, hc, hv, hres⟩ := herr h
      rw [hres] at he
      exact ⟨c, hc, hv, (Except.error.inj he).symm⟩
    · rw [hok h] at he
      cases he
  · cases gpuAcct <;> simp [main, strings.Split, resolveLoop, allclusters]

/-- C10 on the declared map: the flag `local,gpu1` is fatal (`gpu1` is not a
key) and the flag `local` is not. -/
theorem C10_main_cluster_resolution_witness :
    (∃ e, main allclusters "local,gpu1".toList false ":9341".toList
        = Except.error e) ∧
    main allclusters "local".toList false ":9341".toList =
      Except.ok { clusters := ["local".toList].map (clusterOf allclusters)
                  gpusRegistered := false
                  listenAddress := ":9341".toList } := by
  refine ⟨?_, ?_⟩
  · exact (C10_main_cluster_resolution allclusters "local,gpu1".toList false
      ":9341".toList).1.mp ⟨"gpu1".toList, by decide, by decide⟩
  · exact (C10_main_cluster_resolution allclusters "local".toList false
      ":9341".toList).2.2.1 (by decide)

/-! ## C9 -/

theorem Collect_eq_snapshots {W : Type} (cc : GPUsCollector)
    (sys : SystemRun W) (clusters : List ClusterInfo) (w : W) :
    GPUsCollector.Collect cc sys clusters w =
      (valuesOfAll cc clusters (snapshots sys clusters w).1,
        (snapshots sys clusters w).2) := by
  induction clusters generalizing w with
  | nil => rfl
  | cons c rest ih =>
    simp only [GPUsCollector.Collect, snapshots]
    cases hg : GPUsGetMetrics sys c w with
    | error e => rfl
    | ok r =>
      obtain ⟨cm, w1⟩ := r
      simp only [ih w1, valuesOfAll, valuesOf, List.cons_append, List.nil_append]

theorem snapshots_length_le {W : Type} (sys : SystemRun W)
    (clusters : List ClusterInfo) (w : W) :
    (snapshots sys clusters w).1.length ≤ clusters.length := by
  induction clusters generalizing w with
  | nil => simp [snapshots]
  | cons c rest ih =>
    simp only [snapshots]
    cases hg : GPUsGetMetrics sys c w with
    | error e => simp
    | ok r =>
      obtain ⟨cm, w1⟩ := r
      simp only [List.length_cons]
      exact Nat.succ_le_succ (ih w1)

theorem snapshots_length_ok {W : Type} (sys : SystemRun W)
    (clusters : List ClusterInfo) (w w1 : W)
    (h : (snapshots sys clusters w).2 = Except.ok w1) :
    (snapshots sys clusters w).1.length = clusters.length := by
  induction clusters generalizing w with
  | nil => simp [snapshots]
  | cons c rest ih =>
    simp only [snapshots] at h ⊢
    cases hg : GPUsGetMetrics sys c w with
    | error e => simp only [hg] at h; cases h
    | ok r =>
      obtain ⟨cm, w2⟩ := r
      simp only [hg] at h
      simp only [List.length_cons, ih w2 h]

theorem snapshots_length_error {W : Type} (sys : SystemRun W)
    (clusters : List ClusterInfo) (w : W) (e : Crash)
    (h : (snapshots sys clusters w).2 = Except.error e) :
    (snapshots sys clusters w).1.length < clusters.length := by
  induction clusters generalizing w with
  | nil => simp only [snapshots] at h; cases h
  | cons c rest ih =>
    simp only [snapshots] at h ⊢
    cases hg : GPUsGetMetrics sys c w with
    | error e1 => simp
    | ok r =>
      obtain ⟨cm, w2⟩ := r
      simp only [hg] at h
      simp only [List.length_cons]
      exact Nat.succ_lt_succ (ih w2 h)

theorem valuesOfAll_length (cc : GPUsCollector) (clusters : List ClusterInfo)
    (cms : List GPUsMetrics) (h : cms.length ≤ clusters.length) :
    (valuesOfAll cc clusters cms).length = 4 * cms.length := by
  induction clusters generalizing cms with
  | nil =>
    cases cms with
    | nil => simp [valuesOfAll]
    | cons cm cms => simp at h
  | cons c rest ih =>
    cases cms with
    | nil => simp [valuesOfAll]
    | cons cm cms =>
      simp only [List.length_cons, Nat.add_le_add_iff_right] at h
      simp only [valuesOfAll, valuesOf, List.length_append, List.length_cons,
        List.length_nil, ih cms h]
      omega

theorem valuesOfAll_get (cc : GPUsCollector) (clusters : List ClusterInfo)
    (cms : List GPUsMetrics) (i : Nat) (c : ClusterInfo) (cm : GPUsMetrics)
    (hc : clusters.get? i = some c) (hm : cms.get? i = some cm) :
    (valuesOfAll cc clusters cms).get? (4 * i) = some ⟨cc.alloc, cm.alloc, [c.name]⟩ ∧
    (valuesOfAll cc clusters cms).get? (4 * i + 1) = some ⟨cc.idle, cm.idle, [c.name]⟩ ∧
    (valuesOfAll cc clusters cms).get? (4 * i + 2) = some ⟨cc.total, cm.total, [c.name]⟩ ∧
    (valuesOfAll cc clusters cms).get? (4 * i + 3)
      = some ⟨cc.utilization, cm.utilization, [c.name]⟩ := by
  induction clusters generalizing cms i with
  | nil => simp at hc
  | cons c0 rest ih =>
    cases cms with
    | nil => simp at hm
    | cons cm0 cms =>
      cases i with
      | zero =>
        simp only [List.get?_cons_zero, Option.some.injEq] at hc hm
        subst hc hm
        simp [valuesOfAll, valuesOf]
      | succ j =>
        simp only [List.get?_cons_succ] at hc hm
        have h4 : 4 * (j + 1) = 4 * j + 4 := by ring
        have := ih cms j hc hm
        simp only [valuesOfAll, valuesOf, h4, List.cons_append, List.nil_append]
        simpa [List.get?_cons_succ, Nat.add_right_comm _ 4] using this

theorem valuesOfAll_label (cc : GPUsCollector) (clusters : List ClusterInfo)
    (cms : List GPUsMetrics) :
    ∀ m ∈ valuesOfAll cc clusters cms, ∃ c ∈ clusters, m.labelValues = [c.name] := by
  induction clusters generalizing cms with
  | nil => intro m hm; simp [valuesOfAll] at hm
  | cons c rest ih =>
    cases cms with
    | nil => intro m hm; simp [valuesOfAll] at hm
    | cons cm cms =>
      intro m hm
      simp only [valuesOfAll, List.mem_append] at hm
      rcases hm with hm | hm
      · refine ⟨c, List.mem_cons_self _ _, ?_⟩
        simp only [valuesOf, List.mem_cons, List.mem_singleton, List.not_mem_nil,
          or_false] at hm
        rcases hm with rfl | rfl | rfl | rfl <;> rfl
      · obtain ⟨c1, hc1, hl⟩ := ih cms m hm
        exact ⟨c1, List.mem_cons_of_mem _ hc1, hl⟩

theorem valuesOfAll_nodup (cc : GPUsCollector) (clusters : List ClusterInfo)
    (cms : List GPUsMetrics) (hn : (clusters.map ClusterInfo.name).Nodup)
    (hd : cc.Describe.Nodup) :
    ((valuesOfAll cc clusters cms).map (fun m => (m.desc, m.labelValues))).Nodup := by
  induction clusters generalizing cms with
  | nil => simp [valuesOfAll]
  | cons c rest ih =>
    cases cms with
    | nil => simp [valuesOfAll]
    | cons cm cms =>
      rw [List.map_cons, List.nodup_cons] at hn
      simp only [valuesOfAll, List.map_append]
      rw [List.nodup_append]
      refine ⟨?_, ih cms hn.2, ?_⟩
      · have e : (valuesOf cc c cm).map (fun m => (m.desc, m.labelValues))
            = cc.Describe.map (fun d => (d, [c.name])) := rfl
        rw [e]
        exact hd.map (fun a b hab => (Prod.mk.inj hab).1)
      · intro p hp1 hp2
        obtain ⟨m1, hm1, rfl⟩ := List.mem_map.mp hp1
        obtain ⟨m2, hm2, he⟩ := List.mem_map.mp hp2
        obtain ⟨c2, hc2, hl2⟩ := valuesOfAll_label cc rest cms m2 hm2
        have hl1 : m1.labelValues = [c.name] := by
          simp only [valuesOf, List.mem_cons, List.mem_singleton, List.not_mem_nil,
            or_false] at hm1
          rcases hm1 with rfl | rfl | rfl | rfl <;> rfl
        have hname : c2.name = c.name := by
          have h3 := (Prod.mk.inj he).2
          rw [hl1, hl2] at h3
          exact List.head_eq_of_cons_eq h3
        exact hn.1 (hname ▸ List.mem_map.mpr ⟨c2, hc2, rfl⟩)

theorem valuesOfAll_complete (cc : GPUsCollector) (clusters : List ClusterInfo)
    (cms : List GPUsMetrics) (hlen : cms.length = clusters.length) :
    ∀ c ∈ clusters, ∀ d ∈ cc.Describe,
      ∃ m ∈ valuesOfAll cc clusters cms, m.desc = d ∧ m.labelValues = [c.name] := by
  induction clusters generalizing cms with
  | nil => intro c hc; simp at hc
  | cons c0 rest ih =>
    cases cms with
    | nil => simp at hlen
    | cons cm cms =>
      simp only [List.length_cons, Nat.add_right_cancel_iff] at hlen
      intro c hc d hd
      rcases List.mem_cons.mp hc with rfl | hc
      · simp only [GPUsCollector.Describe, List.mem_cons, List.mem_singleton,
          List.not_mem_nil, or_false] at hd
        simp only [valuesOfAll, valuesOf, List.mem_append, List.mem_cons,
          List.mem_singleton, List.not_mem_nil, or_false]
        rcases hd with rfl | rfl | rfl | rfl
        · exact ⟨_, Or.inl (Or.inl rfl), rfl, rfl⟩
        · exact ⟨_, Or.inl (Or.inr (Or.inl rfl)), rfl, rfl⟩
        · exact ⟨_, Or.inl (Or.inr (Or.inr (Or.inl rfl))), rfl, rfl⟩
        · exact ⟨_, Or.inl (Or.inr (Or.inr (Or.inr rfl))), rfl, rfl⟩
      · obtain ⟨m, hm, h1, h2⟩ := ih cms hlen c hc d hd
        exact ⟨m, by simp only [valuesOfAll, List.mem_append]; exact Or.inr hm, h1, h2⟩

/-- C9 as stated fails.  With two clusters, of which the second is queried
with `-M gpu1` and its command exits with an error, `Execute` ends the process
in `log.Fatal` when `Collect` has sent the four values of `local` only:
4 values, not `4 * 2`. -/
theorem C9_counterexample_command_failure :
    GPUsCollector.Collect NewGPUsCollector
        (failingSys "node1 board:gpu:8".toList "board:gpu:4".toList)
        [localCluster, gpu1Cluster] ()
      = (valuesOf NewGPUsCollector localCluster
          (metricsOfTotals (F64.ofNat 8) (F64.ofNat 4)),
         Except.error (Crash.fatal "exit status 1".toList)) ∧
    (GPUsCollector.Collect NewGPUsCollector
        (failingSys "node1 board:gpu:8".toList "board:gpu:4".toList)
        [localCluster, gpu1Cluster] ()).1.length
      ≠ 4 * [localCluster, gpu1Cluster].length := by
  refine ⟨?_, ?_⟩ <;> decide!

/-- On a later cluster whose inventory line is `node1 board:gpu` the panic of
the parser ends `Collect` after the values of the clusters before it have been
sent. -/
theorem Collect_sent_before_panic :
    GPUsCollector.Collect NewGPUsCollector
        (fun command arguments w =>
          if arguments.head? = some "-M".toList then
            (Except.ok "node1 board:gpu".toList, w)
          else fixedSys "node1 board:gpu:8".toList "board:gpu:4".toList
            command arguments w)
        [localCluster, gpu1Cluster] ()
      = (valuesOf NewGPUsCollector localCluster
          (metricsOfTotals (F64.ofNat 8) (F64.ofNat 4)),
         Except.error (Crash.indexOutOfRange 2 2)) := by
  decide!

/-- C9 amended: `Collect` sends four values for each cluster whose snapshot is
taken, in the order of the cluster list: `4 * k` values for the `k` snapshots
taken, the values at the positions `4 * i`, `4 * i + 1`, `4 * i + 2`,
`4 * i + 3` being the alloc, idle, total and utilization of the snapshot of
cluster `i`, each with its descriptor and the name of cluster `i` as the
label.  No pair of a descriptor and a label is sent twice when the four
descriptors are distinct and the cluster names are distinct.  The call ends as
the taking of the snapshots ends: when it returns, all `n` snapshots were
taken, `4 * n` values were sent and every pair of a descriptor and a cluster
of the list is among them; when it is ended early, fewer than `n` snapshots
were taken and only their values were sent. -/
theorem C9_Collect_emits_four_per_snapshot {W : Type} (cc : GPUsCollector)
    (sys : SystemRun W) (clusters : List ClusterInfo) (w : W) :
    (GPUsCollector.Collect cc sys clusters w).2 = (snapshots sys clusters w).2 ∧
    (GPUsCollector.Collect cc sys clusters w).1.length
      = 4 * (snapshots sys clusters w).1.length ∧
    (snapshots sys clusters w).1.length ≤ clusters.length ∧
    (∀ i c cm, clusters.get? i = some c →
      (snapshots sys clusters w).1.get? i = some cm →
      (GPUsCollector.Collect cc sys clusters w).1.get? (4 * i)
        = some ⟨cc.alloc, cm.alloc, [c.name]⟩ ∧
      (GPUsCollector.Collect cc sys clusters w).1.get? (4 * i + 1)
        = some ⟨cc.idle, cm.idle, [c.name]⟩ ∧
      (GPUsCollector.Collect cc sys clusters w).1.get? (4 * i + 2)
        = some ⟨cc.total, cm.total, [c.name]⟩ ∧
      (GPUsCollector.Collect cc sys clusters w).1.get? (4 * i + 3)
        = some ⟨cc.utilization, cm.utilization, [c.name]⟩) ∧
    ((clusters.map ClusterInfo.name).Nodup → cc.Describe.Nodup →
      ((GPUsCollector.Collect cc sys clusters w).1.map
        (fun m => (m.desc, m.labelValues))).Nodup) ∧
    (∀ w1, (GPUsCollector.Collect cc sys clusters w).2 = Except.ok w1 →
      (snapshots sys clusters w).1.length = clusters.length ∧
      (GPUsCollector.Collect cc sys clusters w).1.length = 4 * clusters.length ∧
      ∀ c ∈ clusters, ∀ d ∈ cc.Describe,
        ∃ m ∈ (GPUsCollector.Collect cc sys clusters w).1,
          m.desc = d ∧ m.labelValues = [c.name]) ∧
    (∀ e, (GPUsCollector.Collect cc sys clusters w).2 = Except.error e →
      (snapshots sys clusters w).1.length < clusters.length ∧
      (GPUsCollector.Collect cc sys clusters w).1.length < 4 * clusters.length) := by
  have hle := snapshots_length_le sys clusters w
  have hlen := valuesOfAll_length cc clusters (snapshots sys clusters w).1 hle
  rw [Collect_eq_snapshots]
  refine ⟨rfl, hlen, hle, ?_, ?_, ?_, ?_⟩
  · intro i c cm hc hm
    exact valuesOfAll_get cc clusters _ i c cm hc hm
  · intro hn hd
    exact valuesOfAll_nodup cc clusters _ hn hd
  · intro w1 h
    have hfull := snapshots_length_ok sys clusters w w1 h
    refine ⟨hfull, ?_, valuesOfAll_complete cc clusters _ hfull⟩
    show (valuesOfAll cc clusters (snapshots sys clusters w).1).length = _
    rw [hlen, hfull]
  · intro e h
    have hlt := snapshots_length_error sys clusters w e h
    refine ⟨hlt, ?_⟩
    show (valuesOfAll cc clusters (snapshots sys clusters w).1).length < _
    rw [hlen]
    omega

/-- C9 amended, on two clusters that both print one board of 8 GPUs of which
4 are allocated: `Collect` returns, eight values are sent, the first for
`local`, the fifth for `gpu1`, none twice. -/
theorem C9_Collect_emits_four_per_snapshot_witness :
    (GPUsCollector.Collect NewGPUsCollector
        (fixedSys "node1 board:gpu:8".toList "board:gpu:4".toList)
        [localCluster, gpu1Cluster] ()).2 = Except.ok () ∧
    (GPUsCollector.Collect NewGPUsCollector
        (fixedSys "node1 board:gpu:8".toList "board:gpu:4".toList)
        [localCluster, gpu1Cluster] ()).1.length = 4 * 2 ∧
    (GPUsCollector.Collect NewGPUsCollector
        (fixedSys "node1 board:gpu:8".toList "board:gpu:4".toList)
        [localCluster, gpu1Cluster] ()).1.get? 0
      = some ⟨NewGPUsCollector.alloc, F64.ofNat 4, ["local".toList]⟩ ∧
    (GPUsCollector.Collect NewGPUsCollector
        (fixedSys "node1 board:gpu:8".toList "board:gpu:4".toList)
        [localCluster, gpu1Cluster] ()).1.get? 4
      = some ⟨NewGPUsCollector.alloc, F64.ofNat 4, ["gpu1".toList]⟩ ∧
    ((GPUsCollector.Collect NewGPUsCollector
        (fixedSys "node1 board:gpu:8".toList "board:gpu:4".toList)
        [localCluster, gpu1Cluster] ()).1.map
      (fun m => (m.desc, m.labelValues))).Nodup := by
  have hrun : (GPUsCollector.Collect NewGPUsCollector
      (fixedSys "node1 board:gpu:8".toList "board:gpu:4".toList)
      [localCluster, gpu1Cluster] ()).2 = Except.ok () := by decide!
  have hsnap : (snapshots
      (fixedSys "node1 board:gpu:8".toList "board:gpu:4".toList)
      [localCluster, gpu1Cluster] ()).1
      = [metricsOfTotals (F64.ofNat 8) (F64.ofNat 4),
         metricsOfTotals (F64.ofNat 8) (F64.ofNat 4)] := by decide!
  obtain ⟨_, _, _, hget, hnodup, hok, _⟩ :=
    C9_Collect_emits_four_per_snapshot NewGPUsCollector
      (fixedSys "node1 board:gpu:8".toList "board:gpu:4".toList)
      [localCluster, gpu1Cluster] ()
  have h0 := (hget 0 localCluster (metricsOfTotals (F64.ofNat 8) (F64.ofNat 4))
    rfl (by rw [hsnap]; rfl)).1
  have h1 := (hget 1 gpu1Cluster (metricsOfTotals (F64.ofNat 8) (F64.ofNat 4))
    rfl (by rw [hsnap]; rfl)).1
  exact ⟨hrun, (hok () hrun).2.1, h0, h1, hnodup (by decide) (by decide)⟩

/-! ## Splitting and the loops -/

theorem Split_of_not_mem (sep : Char) (a : GoString) (h : sep ∉ a) :
    strings.Split a sep = [a] := by
  induction a with
  | nil => rfl
  | cons c cs ih =>
    have hc : c ≠ sep := fun e => h (e ▸ List.mem_cons_self _ _)
    have hcs : sep ∉ cs := fun m => h (List.mem_cons_of_mem _ m)
    simp [strings.Split, hc, ih hcs]

theorem Split_append_sep (sep : Char) (a b : GoString) (h : sep ∉ a) :
    strings.Split (a ++ sep :: b) sep = a :: strings.Split b sep := by
  induction a with
  | nil => simp [strings.Split]
  | cons c cs ih =>
    have hc : c ≠ sep := fun e => h (e ▸ List.mem_cons_self _ _)
    have hcs : sep ∉ cs := fun m => h (List.mem_cons_of_mem _ m)
    simp [strings.Split, hc, ih hcs]

theorem Split_board (t c : GoString) (ht : ':' ∉ t) (hc : ':' ∉ c) :
    strings.Split (boardSentinel ++ t ++ ':' :: c) ':'
      = [['b', 'o', 'a', 'r', 'd'], t, c] := by
  have h1 : boardSentinel ++ t ++ ':' :: c
      = ['b', 'o', 'a', 'r', 'd'] ++ ':' :: (t ++ ':' :: c) := by
    simp [boardSentinel]
  rw [h1, Split_append_sep ':' _ _ (by decide), Split_append_sep ':' _ _ ht,
    Split_of_not_mem ':' _ hc]

theorem addBoard_of_split (st : GPUMap × F64) (d b t tok : GoString)
    (rest : List GoString) (h : strings.Split d ':' = b :: t :: tok :: rest) :
    addBoard st d =
      Except.ok (GPUMap.addTo st.1 t (strconv.ParseFloat tok).1,
        F64.add st.2 (strconv.ParseFloat tok).1) := by
  simp [addBoard, h, index]

theorem addBoard_board (st : GPUMap × F64) (t c : GoString)
    (ht : ':' ∉ t) (hc : ':' ∉ c) :
    addBoard st (boardSentinel ++ t ++ ':' :: c) =
      Except.ok (GPUMap.addTo st.1 t (strconv.ParseFloat c).1,
        F64.add st.2 (strconv.ParseFloat c).1) :=
  addBoard_of_split st _ _ t c [] (Split_board t c ht hc)

theorem forLines_append
    (body : GPUMap × F64 → GoString → Except Crash (GPUMap × F64))
    (pre post : List GoString) (st : GPUMap × F64) :
    forLines body (pre ++ post) st =
      (match forLines body pre st with
       | Except.error c => Except.error c
       | Except.ok st1 => forLines body post st1) := by
  induction pre generalizing st with
  | nil => rfl
  | cons l ls ih =>
    simp only [List.cons_append, forLines]
    cases body st l with
    | error c => rfl
    | ok st1 => exact ih st1

theorem forLines_congr
    (body1 body2 : GPUMap × F64 → GoString → Except Crash (GPUMap × F64))
    (lines : List GoString) (st : GPUMap × F64)
    (h : ∀ st1, ∀ l ∈ lines, body1 st1 l = body2 st1 l) :
    forLines body1 lines st = forLines body2 lines st := by
  induction lines generalizing st with
  | nil => rfl
  | cons l ls ih =>
    simp only [forLines, h st l (List.mem_cons_self _ _)]
    cases body2 st l with
    | error c => rfl
    | ok st1 => exact ih st1 (fun st2 l2 hl2 => h st2 l2 (List.mem_cons_of_mem _ hl2))

theorem allocatedOfOutput_eq_forLines (output : GoString) :
    allocatedOfOutput output =
      forLines allocatedLine (strings.Split output newline) ([], F64.zero) := by
  cases output with
  | nil => decide
  | cons c cs => simp [allocatedOfOutput]

theorem totalOfOutput_eq_forLines (output : GoString) :
    totalOfOutput output =
      forLines totalLine (strings.Split output newline) ([], F64.zero) := by
  cases output with
  | nil => decide
  | cons c cs => simp [totalOfOutput]

/-! ## C3 -/

theorem totalLine_eq (st : GPUMap × F64) (line : GoString) :
    totalLine st line =
      (match countedDescriptor line with
       | none => Except.ok st
       | some d => addBoard st d) := by
  simp only [totalLine, countedDescriptor, fieldsOf]
  generalize strings.Fields (strings.Trim line dquote) = fields
  cases fields with
  | nil => simp
  | cons f0 fs =>
    cases fs with
    | nil => simp
    | cons f1 fs2 =>
      by_cases hp : strings.HasPrefix f1 boardSentinel = true
      · simp [hp, Option.filter]
      · simp [hp, Option.filter]

theorem forLines_totalLine (lines : List GoString) (st : GPUMap × F64) :
    forLines totalLine lines st =
      forLines addBoard (lines.filterMap countedDescriptor) st := by
  induction lines generalizing st with
  | nil => rfl
  | cons l ls ih =>
    simp only [forLines, List.filterMap_cons, totalLine_eq st l]
    cases hd : countedDescriptor l with
    | none => exact ih st
    | some d =>
      simp only [forLines]
      cases addBoard st d with
      | error c => rfl
      | ok st1 => exact ih st1

/-- C3: what `ParseTotalGPUs` reads from an inventory output is what
`addBoard` accumulates over the second fields of the lines that, once the
enclosing quotes are stripped and the line is split at white space, have at
least two fields with the second beginning with `board:`.  A line is counted
exactly when it has such a second field, the type and the count come from
that field alone (`board:<type>:<count>` adds the parsed count to the type
and to the total), and any other line leaves breakdown and total as they
are. -/
theorem C3_ParseTotalGPUs_second_field (output : GoString) :
    totalOfOutput output =
      forLines addBoard
        ((strings.Split output newline).filterMap countedDescriptor)
        ([], F64.zero) ∧
    (∀ line d, countedDescriptor line = some d ↔
      (2 ≤ (fieldsOf line).length ∧ (fieldsOf line).get? 1 = some d ∧
        strings.HasPrefix d boardSentinel = true)) ∧
    (∀ st line d, countedDescriptor line = some d →
      totalLine st line = addBoard st d) ∧
    (∀ st line, countedDescriptor line = none → totalLine st line = Except.ok st) ∧
    (∀ st t c, ':' ∉ t → ':' ∉ c →
      addBoard st (boardSentinel ++ t ++ ':' :: c) =
        Except.ok (GPUMap.addTo st.1 t (strconv.ParseFloat c).1,
          F64.add st.2 (strconv.ParseFloat c).1)) := by
  refine ⟨?_, ?_, ?_, ?_, ?_⟩
  · rw [totalOfOutput_eq_forLines, forLines_totalLine]
  · intro line d
    unfold countedDescriptor
    by_cases h2 : 2 ≤ (fieldsOf line).length
    · simp only [h2, if_true, true_and]
      cases hg : (fieldsOf line).get? 1 with
      | none => simp [Option.filter]
      | some d1 =>
        by_cases hp : strings.HasPrefix d1 boardSentinel = true
        · simp only [Option.filter, hp, if_true, Option.some.injEq]
          constructor
          · rintro rfl; exact ⟨rfl, hp⟩
          · rintro ⟨h, _⟩; exact h
        · simp only [Option.filter, hp, Option.some.injEq]
          constructor
          · intro h; cases h
          · rintro ⟨rfl, h⟩; exact absurd h hp
    · simp [h2]
  · intro st line d h
    rw [totalLine_eq, h]
  · intro st line h
    rw [totalLine_eq, h]
  · intro st t c ht hc
    exact addBoard_board st t c ht hc

/-- C3 on concrete lines: a descriptor in the second field is counted, the
same descriptor in the first or third field, or alone on its line, is not. -/
theorem C3_ParseTotalGPUs_second_field_witness :
    totalOfOutput "node1 board:gpu:8\nboard:gpu:8 node2\nnode3 x board:gpu:8\nboard:gpu:8".toList
      = Except.ok ([("gpu".toList, F64.ofNat 8)], F64.ofNat 8) ∧
    addBoard ([], F64.zero) (boardSentinel ++ "gpu".toList ++ ':' :: "8".toList)
      = Except.ok (GPUMap.addTo [] "gpu".toList (strconv.ParseFloat "8".toList).1,
          F64.add F64.zero (strconv.ParseFloat "8".toList).1) := by
  refine ⟨?_, ?_⟩
  · rw [(C3_ParseTotalGPUs_second_field _).1]
    decide!
  · exact (C3_ParseTotalGPUs_second_field []).2.2.2.2 ([], F64.zero) "gpu".toList
      "8".toList (by decide) (by decide)

/-! ## C4 -/

theorem round_cases (neg : Bool) (n d : Nat) :
    F64.round neg n d = F64.inf neg ∨ ∃ m e, F64.round neg n d = F64.fin neg m e := by
  unfold F64.round
  simp only []
  split
  · split
    · exact Or.inl rfl
    · exact Or.inr ⟨_, _, rfl⟩
  · split
    · exact Or.inl rfl
    · exact Or.inr ⟨_, _, rfl⟩

theorem toFloat_cases (r : strconv.ReadResult) :
    strconv.toFloat r = F64.inf r.neg ∨
      ∃ m e, strconv.toFloat r = F64.fin r.neg m e := by
  unfold strconv.toFloat
  split
  · exact Or.inr ⟨_, _, rfl⟩
  · split
    · exact round_cases _ _ _
    · exact round_cases _ _ _

theorem ParseFloat_syntax_zero (s : GoString)
    (h : (strconv.ParseFloat s).2 = some NumError.ErrSyntax) :
    (strconv.ParseFloat s).1 = F64.zero := by
  unfold strconv.ParseFloat at h ⊢
  cases hs : strconv.special s with
  | some p =>
    obtain ⟨v, n⟩ := p
    simp only [hs] at h ⊢
    by_cases hn : n = s.length
    · simp [hn] at h
    · simp [hn]
  | none =>
    simp only [hs] at h ⊢
    cases hr : strconv.readFloat s with
    | none => rfl
    | some r =>
      simp only [hr] at h ⊢
      by_cases hn : r.n = s.length
      · simp only [hn, ne_eq, not_true_eq_false, if_false] at h
        split at h <;> simp at h
      · simp [hn]

theorem ParseFloat_range_inf (s : GoString)
    (h : (strconv.ParseFloat s).2 = some NumError.ErrRange) :
    (strconv.ParseFloat s).1 = F64.inf false ∨
      (strconv.ParseFloat s).1 = F64.inf true := by
  unfold strconv.ParseFloat at h ⊢
  cases hs : strconv.special s with
  | some p =>
    obtain ⟨v, n⟩ := p
    simp only [hs] at h
    by_cases hn : n = s.length
    · simp [hn] at h
    · simp [hn] at h
  | none =>
    simp only [hs] at h ⊢
    cases hr : strconv.readFloat s with
    | none => simp [hr] at h
    | some r =>
      simp only [hr] at h ⊢
      by_cases hn : r.n = s.length
      · simp only [hn, ne_eq, not_true_eq_false, if_false] at h ⊢
        rcases toFloat_cases r with hf | ⟨m, e, hf⟩
        · simp only [hf]
          cases r.neg <;> simp
        · simp [hf, F64.isFinite] at h
      · simp [hn] at h

theorem allocatedLine_of_reads (st : GPUMap × F64) (line t tok : GoString)
    (h : allocatedReads line t tok) :
    allocatedLine st line =
      Except.ok (GPUMap.addTo st.1 t (strconv.ParseFloat tok).1,
        F64.add st.2 (strconv.ParseFloat tok).1) := by
  obtain ⟨hp, b, rest, hs⟩ := h
  simp only [allocatedLine, hp, if_true]
  exact addBoard_of_split st _ b t tok rest hs

theorem totalLine_of_reads (st : GPUMap × F64) (line t tok : GoString)
    (h : totalReads line t tok) :
    totalLine st line =
      Except.ok (GPUMap.addTo st.1 t (strconv.ParseFloat tok).1,
        F64.add st.2 (strconv.ParseFloat tok).1) := by
  obtain ⟨d, hd, b, rest, hs⟩ := h
  rw [totalLine_eq, hd]
  exact addBoard_of_split st _ b t tok rest hs

theorem forLines_replace
    (body : GPUMap × F64 → GoString → Except Crash (GPUMap × F64))
    (pre post : List GoString) (line line0 : GoString)
    (h : ∀ st, body st line = body st line0) (st : GPUMap × F64) :
    forLines body (pre ++ line :: post) st
      = forLines body (pre ++ line0 :: post) st := by
  rw [forLines_append, forLines_append]
  cases forLines body pre st with
  | error c => rfl
  | ok st1 => simp only [forLines, h st1]

/-- C4 as stated fails for a token that is numeric but out of range:
`ParseFloat` returns `+Inf` with its range error for `1e400`, the error is
dropped, and the line adds `+Inf`, not `0`, to the breakdown and to the
total. -/
theorem C4_counterexample_out_of_range :
    (strconv.ParseFloat "1e400".toList).2 = some NumError.ErrRange ∧
    allocatedOfOutput "board:gpu:1e400\nboard:gpu:2".toList
      = Except.ok ([("gpu".toList, F64.inf false)], F64.inf false) ∧
    allocatedOfOutput "board:gpu:0\nboard:gpu:2".toList
      = Except.ok ([("gpu".toList, F64.ofNat 2)], F64.ofNat 2) ∧
    totalOfOutput "node1 board:gpu:1e400\nnode2 board:gpu:2".toList
      = Except.ok ([("gpu".toList, F64.inf false)], F64.inf false) ∧
    totalOfOutput "node1 board:gpu:0\nnode2 board:gpu:2".toList
      = Except.ok ([("gpu".toList, F64.ofNat 2)], F64.ofNat 2) ∧
    allocatedOfOutput "board:gpu:1e400\nboard:gpu:2".toList
      ≠ allocatedOfOutput "board:gpu:0\nboard:gpu:2".toList ∧
    totalOfOutput "node1 board:gpu:1e400\nnode2 board:gpu:2".toList
      ≠ totalOfOutput "node1 board:gpu:0\nnode2 board:gpu:2".toList := by
  refine ⟨?_, ?_, ?_, ?_, ?_, ?_, ?_⟩ <;> decide!

/-- C4 amended: a line whose numeric token `ParseFloat` rejects with a syntax
error contributes 0: breakdown and total are those of the output in which the
line has the token `0` for the same type, the lines before and after being
parsed alike.  A token that `ParseFloat` rejects with a range error
contributes the infinity that `ParseFloat` returns. -/
theorem C4_malformed_token_contributes_zero
    (output output0 : GoString) (pre post : List GoString)
    (line line0 t tok : GoString)
    (hout : strings.Split output newline = pre ++ line :: post)
    (hout0 : strings.Split output0 newline = pre ++ line0 :: post) :
    ((strconv.ParseFloat tok).2 = some NumError.ErrSyntax →
      (allocatedReads line t tok → allocatedReads line0 t ['0'] →
        allocatedOfOutput output = allocatedOfOutput output0) ∧
      (totalReads line t tok → totalReads line0 t ['0'] →
        totalOfOutput output = totalOfOutput output0)) ∧
    ((strconv.ParseFloat tok).2 = some NumError.ErrRange →
      ((strconv.ParseFloat tok).1 = F64.inf false ∨
        (strconv.ParseFloat tok).1 = F64.inf true) ∧
      (allocatedReads line t tok → ∀ st, allocatedLine st line =
        Except.ok (GPUMap.addTo st.1 t (strconv.ParseFloat tok).1,
          F64.add st.2 (strconv.ParseFloat tok).1)) ∧
      (totalReads line t tok → ∀ st, totalLine st line =
        Except.ok (GPUMap.addTo st.1 t (strconv.ParseFloat tok).1,
          F64.add st.2 (strconv.ParseFloat tok).1))) := by
  have hzero : (strconv.ParseFloat ['0']).1 = F64.zero := by decide
  refine ⟨fun hsyn => ⟨?_, ?_⟩, fun hrange => ⟨ParseFloat_range_inf tok hrange,
    fun h st => allocatedLine_of_reads st line t tok h,
    fun h st => totalLine_of_reads st line t tok h⟩⟩
  · intro h h0
    rw [allocatedOfOutput_eq_forLines, allocatedOfOutput_eq_forLines, hout, hout0]
    apply forLines_replace
    intro st
    rw [allocatedLine_of_reads st line t tok h,
      allocatedLine_of_reads st line0 t ['0'] h0,
      ParseFloat_syntax_zero tok hsyn, hzero]
  · intro h h0
    rw [totalOfOutput_eq_forLines, totalOfOutput_eq_forLines, hout, hout0]
    apply forLines_replace
    intro st
    rw [totalLine_of_reads st line t tok h,
      totalLine_of_reads st line0 t ['0'] h0,
      ParseFloat_syntax_zero tok hsyn, hzero]

/-- C4 amended, on the outputs with the malformed token `x1` between two
well-formed lines. -/
theorem C4_malformed_token_contributes_zero_witness :
    allocatedOfOutput "board:gpu:1\nboard:gpu:x1\nboard:gpu:2".toList
      = allocatedOfOutput "board:gpu:1\nboard:gpu:0\nboard:gpu:2".toList ∧
    totalOfOutput "n1 board:gpu:1\nn2 board:gpu:x1\nn3 board:gpu:2".toList
      = totalOfOutput "n1 board:gpu:1\nn2 board:gpu:0\nn3 board:gpu:2".toList ∧
    allocatedOfOutput "board:gpu:1\nboard:gpu:x1\nboard:gpu:2".toList
      = Except.ok ([("gpu".toList, F64.ofNat 3)], F64.ofNat 3) := by
  refine ⟨?_, ?_, by decide!⟩
  · exact ((C4_malformed_token_contributes_zero
      "board:gpu:1\nboard:gpu:x1\nboard:gpu:2".toList
      "board:gpu:1\nboard:gpu:0\nboard:gpu:2".toList
      ["board:gpu:1".toList] ["board:gpu:2".toList]
      "board:gpu:x1".toList "board:gpu:0".toList "gpu".toList "x1".toList
      (by decide) (by decide)).1 (by decide)).1
      ⟨by decide, "board".toList, [], by decide⟩
      ⟨by decide, "board".toList, [], by decide⟩
  · exact ((C4_malformed_token_contributes_zero
      "n1 board:gpu:1\nn2 board:gpu:x1\nn3 board:gpu:2".toList
      "n1 board:gpu:1\nn2 board:gpu:0\nn3 board:gpu:2".toList
      ["n1 board:gpu:1".toList] ["n3 board:gpu:2".toList]
      "n2 board:gpu:x1".toList "n2 board:gpu:0".toList "gpu".toList "x1".toList
      (by decide) (by decide)).1 (by decide)).2
      ⟨"board:gpu:x1".toList, by decide, "board".toList, [], by decide⟩
      ⟨"board:gpu:0".toList, by decide, "board".toList, [], by decide⟩

/-! ## A well-formed number has no colon -/

theorem isDigit_ne_colon (c : Char) (h : strconv.isDigit c = true) : c ≠ ':' := by
  rintro rfl
  revert h
  decide

theorem isHexLetter_ne_colon (c : Char) (h : strconv.isHexLetter c = true) :
    c ≠ ':' := by
  rintro rfl
  revert h
  decide

theorem commonPrefixLen_le (s p : GoString) :
    strconv.commonPrefixLenIgnoreCase s p ≤ s.length := by
  induction s generalizing p with
  | nil => simp [strconv.commonPrefixLenIgnoreCase]
  | cons c cs ih =>
    cases p with
    | nil => simp [strconv.commonPrefixLenIgnoreCase]
    | cons q ps =>
      simp only [strconv.commonPrefixLenIgnoreCase, List.length_cons]
      split_ifs <;> first | exact Nat.succ_le_succ (ih ps) | exact Nat.zero_le _

theorem commonPrefixLen_full (s p : GoString) (hp : ':' ∉ p)
    (h : strconv.commonPrefixLenIgnoreCase s p = s.length) : ':' ∉ s := by
  induction s generalizing p with
  | nil => simp
  | cons c cs ih =>
    cases p with
    | nil => simp [strconv.commonPrefixLenIgnoreCase] at h
    | cons q ps =>
      simp only [strconv.commonPrefixLenIgnoreCase, List.length_cons] at h
      by_cases hq : (if 'A' ≤ c ∧ c ≤ 'Z' then Char.ofNat (c.toNat + 32) else c) = q
      · rw [if_pos hq] at h
        have hps : ':' ∉ ps := fun m => hp (List.mem_cons_of_mem _ m)
        have hcs := ih ps hps (Nat.succ.inj h)
        have hc : c ≠ ':' := by
          rintro rfl
          have e : (if 'A' ≤ ':' ∧ ':' ≤ 'Z' then Char.ofNat (':'.toNat + 32) else ':')
              = ':' := by decide
          rw [e] at hq
          exact hp (hq ▸ List.mem_cons_self _ _)
        intro m
        rcases List.mem_cons.mp m with e | m
        · exact hc e.symm
        · exact hcs m
      · rw [if_neg hq] at h
        omega

theorem infLen_full (s : GoString) (n : Nat) (h : strconv.infLen s = some n)
    (hn : n = s.length) : ':' ∉ s := by
  have hle := commonPrefixLen_le s ['i', 'n', 'f', 'i', 'n', 'i', 't', 'y']
  apply commonPrefixLen_full s ['i', 'n', 'f', 'i', 'n', 'i', 't', 'y'] (by decide)
  unfold strconv.infLen at h
  simp only [] at h
  split at h
  · rename_i h38
    simp only [true_or, if_true, Option.some.injEq] at h
    omega
  · split at h
    · simp only [Option.some.injEq] at h
      omega
    · cases h

theorem special_full (s : GoString) (v : F64) (n : Nat)
    (h : strconv.special s = some (v, n)) (hn : n = s.length) : ':' ∉ s := by
  cases s with
  | nil => simp
  | cons c cs =>
    simp only [strconv.special] at h
    split at h
    · rename_i hsign
      cases hi : strconv.infLen cs with
      | none => simp [hi] at h
      | some k =>
        simp only [hi, Option.map_some', Option.some.injEq, Prod.mk.injEq] at h
        have hk : k = cs.length := by
          have := h.2
          simp only [List.length_cons] at hn
          omega
        have hcs := infLen_full cs k hi hk
        have hc : c ≠ ':' := by
          rcases hsign with rfl | rfl <;> decide
        intro m
        rcases List.mem_cons.mp m with e | m
        · exact hc e.symm
        · exact hcs m
    · split at h
      · cases hi : strconv.infLen (c :: cs) with
        | none => simp [hi] at h
        | some k =>
          simp only [hi, Option.map_some', Option.some.injEq, Prod.mk.injEq] at h
          exact infLen_full (c :: cs) k hi (by rw [h.2]; exact hn)
      · split at h
        · split at h
          · rename_i h3
            simp only [Option.some.injEq, Prod.mk.injEq] at h
            apply commonPrefixLen_full (c :: cs) ['n', 'a', 'n'] (by decide)
            rw [h3, h.2, hn]
          · cases h
        · cases h

theorem readDigits_consumed (hex : Bool) (s : GoString) (st : strconv.ReadState) :
    ∃ pre, s = pre ++ (strconv.readDigits hex s st).2 ∧ ':' ∉ pre := by
  induction s generalizing st with
  | nil => exact ⟨[], rfl, by simp⟩
  | cons c cs ih =>
    have step : ∀ st1, c ≠ ':' →
        ∃ pre, c :: cs = pre ++ (strconv.readDigits hex cs st1).2 ∧ ':' ∉ pre := by
      intro st1 hc
      obtain ⟨pre, hpre, hno⟩ := ih st1
      refine ⟨c :: pre, by rw [List.cons_append, ← hpre], ?_⟩
      intro m
      rcases List.mem_cons.mp m with e | m
      · exact hc e.symm
      · exact hno m
    simp only [strconv.readDigits]
    split
    · rename_i hc
      exact step _ (by rw [hc]; decide)
    · split
      · rename_i hc
        split
        · exact ⟨[], rfl, by simp⟩
        · exact step _ (by rw [hc]; decide)
      · split
        · rename_i hd
          split
          · exact step _ (isDigit_ne_colon c hd)
          · exact step _ (isDigit_ne_colon c hd)
        · split
          · rename_i hh
            simp only [Bool.and_eq_true] at hh
            exact step _ (isHexLetter_ne_colon c hh.2)
          · exact ⟨[], rfl, by simp⟩

theorem readExp_consumed (s : GoString) (e : Nat) (us : Bool) :
    ∃ pre, s = pre ++ (strconv.readExp s e us).2.2 ∧ ':' ∉ pre := by
  induction s generalizing e us with
  | nil => exact ⟨[], rfl, by simp⟩
  | cons c cs ih =>
    have step : ∀ e1 us1, c ≠ ':' →
        ∃ pre, c :: cs = pre ++ (strconv.readExp cs e1 us1).2.2 ∧ ':' ∉ pre := by
      intro e1 us1 hc
      obtain ⟨pre, hpre, hno⟩ := ih e1 us1
      refine ⟨c :: pre, by rw [List.cons_append, ← hpre], ?_⟩
      intro m
      rcases List.mem_cons.mp m with e | m
      · exact hc e.symm
      · exact hno m
    simp only [strconv.readExp]
    split
    · rename_i hc
      exact step _ _ (by rw [hc]; decide)
    · split
      · rename_i hd
        exact step _ _ (isDigit_ne_colon c hd)
      · exact ⟨[], rfl, by simp⟩

theorem afterSign_consumed (s : GoString) :
    ∃ pre, s = pre ++ strconv.afterSign s ∧ ':' ∉ pre := by
  cases s with
  | nil => exact ⟨[], rfl, by simp⟩
  | cons c cs =>
    simp only [strconv.afterSign]
    split
    · rename_i hc
      refine ⟨[c], rfl, ?_⟩
      rcases hc with rfl | rfl <;> decide
    · exact ⟨[], rfl, by simp⟩

theorem hexPrefix_consumed (s : GoString) (h : strconv.hasHexPrefix s = true) :
    ∃ pre, s = pre ++ s.drop 2 ∧ ':' ∉ pre := by
  match s, h with
  | a :: b :: c :: rest, h =>
    simp only [strconv.hasHexPrefix, Bool.and_eq_true, decide_eq_true_eq] at h
    refine ⟨[a, b], rfl, ?_⟩
    have ha : a ≠ ':' := by rw [h.1]; decide
    have hb : b ≠ ':' := by
      rintro rfl
      exact absurd h.2 (by decide)
    simp [ha.symm, hb.symm]

theorem readExponent_consumed (hex : Bool) (s : GoString) (dp : Int) (us : Bool)
    (dp1 : Int) (us1 : Bool) (rest : GoString)
    (h : strconv.readExponent hex s dp us = some (dp1, us1, rest)) :
    ∃ pre, s = pre ++ rest ∧ ':' ∉ pre := by
  cases s with
  | nil =>
    simp only [strconv.readExponent] at h
    by_cases hh : hex = true
    · simp [hh] at h
    · simp only [hh, Bool.false_eq_true, if_false, Option.some.injEq, Prod.mk.injEq] at h
      exact ⟨[], by rw [← h.2.2]; rfl, by simp⟩
  | cons c s4 =>
    simp only [strconv.readExponent] at h
    by_cases hc : strconv.lower c = (if hex = true then 'p' else 'e')
    · rw [if_pos hc] at h
      have hcne : c ≠ ':' := by
        rintro rfl
        revert hc
        cases hex <;> decide
      cases s4 with
      | nil => simp at h
      | cons d s5 =>
        simp only [] at h
        have hs6 : ∃ p6, d :: s5 = p6 ++ (if d = '+' ∨ d = '-' then s5 else d :: s5)
            ∧ ':' ∉ p6 := by
          by_cases hd : d = '+' ∨ d = '-'
          · rw [if_pos hd]
            refine ⟨[d], rfl, ?_⟩
            rcases hd with rfl | rfl <;> decide
          · rw [if_neg hd]
            exact ⟨[], rfl, by simp⟩
        obtain ⟨p6, hp6, hno6⟩ := hs6
        generalize (if d = '+' ∨ d = '-' then s5 else d :: s5) = s6 at h hp6
        cases s6 with
        | nil => simp at h
        | cons f tl =>
          simp only [] at h
          by_cases hf : (!strconv.isDigit f) = true
          · rw [if_pos hf] at h
            cases h
          · rw [if_neg hf] at h
            simp only [Option.some.injEq, Prod.mk.injEq] at h
            obtain ⟨pre, hpre, hno⟩ := readExp_consumed (f :: tl) 0 us
            rw [h.2.2] at hpre
            refine ⟨c :: (p6 ++ pre), ?_, ?_⟩
            · rw [hp6, hpre]
              simp
            · intro m
              rcases List.mem_cons.mp m with e | m
              · exact hcne e.symm
              · rcases List.mem_append.mp m with m | m
                · exact hno6 m
                · exact hno m
    · rw [if_neg hc] at h
      by_cases hh : hex = true
      · simp [hh] at h
      · simp only [hh, Bool.false_eq_true, if_false, Option.some.injEq, Prod.mk.injEq] at h
        exact ⟨[], by rw [← h.2.2]; rfl, by simp⟩

theorem readFloat_full (s : GoString) (r : strconv.ReadResult)
    (h : strconv.readFloat s = some r) (hn : r.n = s.length) : ':' ∉ s := by
  cases s with
  | nil => simp [strconv.readFloat] at h
  | cons c0 s0 =>
    simp only [strconv.readFloat] at h
    obtain ⟨p1, hp1, hno1⟩ := afterSign_consumed (c0 :: s0)
    generalize strconv.afterSign (c0 :: s0) = s1 at h hp1
    have hex2 : ∃ p2, s1 = p2 ++ (if strconv.hasHexPrefix s1 = true then s1.drop 2 else s1)
        ∧ ':' ∉ p2 := by
      by_cases hh : strconv.hasHexPrefix s1 = true
      · rw [if_pos hh]; exact hexPrefix_consumed s1 hh
      · rw [if_neg hh]; exact ⟨[], rfl, by simp⟩
    obtain ⟨p2, hp2, hno2⟩ := hex2
    generalize (if strconv.hasHexPrefix s1 = true then s1.drop 2 else s1) = s2 at h hp2
    obtain ⟨p3, hp3, hno3⟩ := readDigits_consumed (strconv.hasHexPrefix s1) s2
      { mantissa := 0, nd := 0, dp := 0, sawdot := false, sawdigits := false,
        underscores := false }
    generalize strconv.readDigits (strconv.hasHexPrefix s1) s2
      { mantissa := 0, nd := 0, dp := 0, sawdot := false, sawdigits := false,
        underscores := false } = rd at h hp3
    obtain ⟨st, s3⟩ := rd
    simp only [] at h hp3
    split at h
    · cases h
    · split at h
      · cases h
      · rename_i dp us rest hre
        obtain ⟨p4, hp4, hno4⟩ := readExponent_consumed _ _ _ _ _ _ _ hre
        split at h
        · cases h
        · simp only [Option.some.injEq] at h
          have hrn : r.n = (c0 :: s0).length - rest.length := by rw [← h]
          have hall : c0 :: s0 = p1 ++ (p2 ++ (p3 ++ (p4 ++ rest))) := by
            rw [← hp4, ← hp3, ← hp2, ← hp1]
          have hlen := congrArg List.length hall
          simp only [List.length_append, List.length_cons] at hlen hrn hn
          have hrest : rest = [] := List.length_eq_zero.mp (by omega)
          rw [hall, hrest]
          simp only [List.append_nil, List.mem_append, not_or]
          exact ⟨hno1, hno2, hno3, hno4⟩

theorem ParseFloat_ok_no_colon (s : GoString)
    (h : (strconv.ParseFloat s).2 = none) : ':' ∉ s := by
  unfold strconv.ParseFloat at h
  cases hs : strconv.special s with
  | some p =>
    obtain ⟨v, n⟩ := p
    simp only [hs] at h
    by_cases hn : n = s.length
    · exact special_full s v n hs hn
    · simp [hn] at h
  | none =>
    simp only [hs] at h
    cases hr : strconv.readFloat s with
    | none => simp [hr] at h
    | some r =>
      simp only [hr] at h
      by_cases hn : r.n = s.length
      · exact readFloat_full s r hr hn
      · simp [hn] at h

/-! ## C2 -/

theorem lookup_set (m : GPUMap) (k : GoString) (v : F64) (k1 : GoString) :
    GPUMap.lookup (GPUMap.set m k v) k1
      = if k = k1 then some v else GPUMap.lookup m k1 := by
  induction m with
  | nil => simp [GPUMap.set, GPUMap.lookup]
  | cons e rest ih =>
    obtain ⟨k0, v0⟩ := e
    simp only [GPUMap.set]
    by_cases h0 : k0 = k
    · subst h0
      by_cases h1 : k0 = k1 <;> simp [GPUMap.lookup, h1]
    · by_cases h1 : k0 = k1
      · subst h1
        simp [GPUMap.lookup, h0, Ne.symm h0]
      · simp [GPUMap.lookup, h0, h1, ih]

theorem lookup_addTo (m : GPUMap) (k : GoString) (v : F64) (k1 : GoString) :
    GPUMap.lookup (GPUMap.addTo m k v) k1
      = if k = k1 then some (F64.add (GPUMap.get m k) v) else GPUMap.lookup m k1 :=
  lookup_set m k _ k1

theorem get_addTo (m : GPUMap) (k : GoString) (v : F64) (k1 : GoString) :
    GPUMap.get (GPUMap.addTo m k v) k1
      = if k = k1 then F64.add (GPUMap.get m k) v else GPUMap.get m k1 := by
  unfold GPUMap.get
  rw [lookup_addTo]
  split <;> rfl

theorem HasPrefix_append (p x : GoString) : strings.HasPrefix (p ++ x) p = true := by
  induction p with
  | nil => cases x <;> rfl
  | cons c cs ih => simp [strings.HasPrefix, ih]

theorem countsOfType_of_not_mem (t : GoString) (ms : List (GoString × F64))
    (h : t ∉ ms.map Prod.fst) : countsOfType t ms = [] := by
  unfold countsOfType
  rw [List.map_eq_nil_iff, List.filter_eq_nil_iff]
  intro p hp hpt
  exact h (List.mem_map.mpr ⟨p, hp, of_decide_eq_true hpt⟩)

theorem matching_cons_none (recs : List (Option (GoString × GoString))) :
    matching (none :: recs) = matching recs := rfl

theorem matching_cons_some (t c : GoString)
    (recs : List (Option (GoString × GoString))) :
    matching (some (t, c) :: recs)
      = (t, (strconv.ParseFloat c).1) :: matching recs := rfl

theorem countsOfType_cons (t1 t : GoString) (v : F64) (ms : List (GoString × F64)) :
    countsOfType t1 ((t, v) :: ms)
      = if t = t1 then v :: countsOfType t1 ms else countsOfType t1 ms := by
  unfold countsOfType
  by_cases h : t = t1 <;> simp [List.filter_cons, h]

theorem forLines_allocated_records (lines : List GoString)
    (recs : List (Option (GoString × GoString)))
    (h : List.Forall₂ lineIs lines recs) (m : GPUMap) (tot : F64) :
    ∃ m1, forLines allocatedLine lines (m, tot)
        = Except.ok (m1, ((matching recs).map Prod.snd).foldl F64.add tot) ∧
      ∀ t, GPUMap.lookup m1 t =
        if t ∈ (matching recs).map Prod.fst then
          some ((countsOfType t (matching recs)).foldl F64.add (GPUMap.get m t))
        else GPUMap.lookup m t := by
  induction h generalizing m tot with
  | nil => exact ⟨m, rfl, fun t => by simp [matching]⟩
  | @cons line r lines recs hl _ ih =>
    cases r with
    | none =>
      have hstep : allocatedLine (m, tot) line = Except.ok (m, tot) := by
        simp only [lineIs] at hl
        simp [allocatedLine, hl]
      obtain ⟨m1, hrun, hlook⟩ := ih m tot
      refine ⟨m1, ?_, ?_⟩
      · simp only [forLines, hstep, matching_cons_none]
        exact hrun
      · intro t
        rw [matching_cons_none]
        exact hlook t
    | some p =>
      obtain ⟨t, c⟩ := p
      obtain ⟨htrim, ht, hc⟩ := hl
      have hcolon := ParseFloat_ok_no_colon c hc
      have hstep : allocatedLine (m, tot) line
          = Except.ok (GPUMap.addTo m t (strconv.ParseFloat c).1,
              F64.add tot (strconv.ParseFloat c).1) := by
        have hp : strings.HasPrefix (boardSentinel ++ t ++ ':' :: c) boardSentinel
            = true := by
          rw [List.append_assoc]
          exact HasPrefix_append _ _
        simp only [allocatedLine, htrim]
        rw [if_pos hp]
        exact addBoard_board (m, tot) t c ht hcolon
      obtain ⟨m1, hrun, hlook⟩ :=
        ih (GPUMap.addTo m t (strconv.ParseFloat c).1)
          (F64.add tot (strconv.ParseFloat c).1)
      have hmatch := matching_cons_some t c recs
      refine ⟨m1, ?_, ?_⟩
      · simp only [forLines, hstep, hmatch, List.map_cons, List.foldl_cons]
        exact hrun
      · intro t1
        rw [hlook t1, hmatch, get_addTo, lookup_addTo, countsOfType_cons]
        by_cases htt : t = t1
        · subst htt
          have hmem2 : t ∈ List.map Prod.fst
              ((t, (strconv.ParseFloat c).1) :: matching recs) :=
            List.mem_map.mpr ⟨_, List.mem_cons_self _ _, rfl⟩
          by_cases hmem : t ∈ (matching recs).map Prod.fst
          · simp only [hmem, hmem2, if_true, List.foldl_cons]
          · simp only [hmem, hmem2, if_true, if_false, List.foldl_cons,
              countsOfType_of_not_mem t _ hmem, List.foldl_nil]
        · by_cases hmem : t1 ∈ (matching recs).map Prod.fst
          · have hmem2 : t1 ∈ List.map Prod.fst
                ((t, (strconv.ParseFloat c).1) :: matching recs) := by
              simp only [List.map_cons, List.mem_cons]
              exact Or.inr hmem
            simp only [hmem, hmem2, if_true, htt, if_false]
          · have hmem2 : ¬ t1 ∈ List.map Prod.fst
                ((t, (strconv.ParseFloat c).1) :: matching recs) := by
              simp only [List.map_cons, List.mem_cons, not_or]
              exact ⟨Ne.symm htt, hmem⟩
            simp only [hmem, hmem2, if_false, htt]

/-- C2: on an accounting output whose every line, stripped of its quotes,
either does not begin with `board:` or is `board:<type>:<count>` with a
well-formed number as count, `ParseAllocatedGPUs` returns a breakdown and a
total; the total is the sum of the counts of the matching lines, the breakdown
holds for each type that occurs the sum of the counts of the lines of that
type and no key for any other type.  The lines that do not begin with
`board:` do not enter either sum. -/
theorem C2_ParseAllocatedGPUs_sums (output : GoString)
    (recs : List (Option (GoString × GoString)))
    (h : List.Forall₂ lineIs (strings.Split output newline) recs) :
    ∃ m total, allocatedOfOutput output = Except.ok (m, total) ∧
      total = sumCounts ((matching recs).map Prod.snd) ∧
      ∀ t, GPUMap.lookup m t =
        if t ∈ (matching recs).map Prod.fst then
          some (sumCounts (countsOfType t (matching recs)))
        else none := by
  obtain ⟨m1, hrun, hlook⟩ := forLines_allocated_records _ recs h [] F64.zero
  refine ⟨m1, _, ?_, rfl, ?_⟩
  · rw [allocatedOfOutput_eq_forLines, hrun]
    rfl
  · intro t
    rw [hlook t]
    rfl

/-- C2, the example of the specification: the lines `board:A100:2` and
`board:A100:3`, a line of another kind between them, give the breakdown
{A100: 5} and the total 5. -/
theorem C2_ParseAllocatedGPUs_sums_witness :
    ∃ m total,
      allocatedOfOutput "board:A100:2\nbilling=4,cpu=4\n\"board:A100:3\"".toList
        = Except.ok (m, total) ∧
      total = F64.ofNat 5 ∧
      GPUMap.lookup m "A100".toList = some (F64.ofNat 5) ∧
      GPUMap.lookup m "V100".toList = none := by
  obtain ⟨m, total, hrun, htot, hlook⟩ :=
    C2_ParseAllocatedGPUs_sums
      "board:A100:2\nbilling=4,cpu=4\n\"board:A100:3\"".toList
      [some ("A100".toList, "2".toList), none, some ("A100".toList, "3".toList)]
      (by
        have e : strings.Split
            "board:A100:2\nbilling=4,cpu=4\n\"board:A100:3\"".toList newline
            = ["board:A100:2".toList, "billing=4,cpu=4".toList,
                "\"board:A100:3\"".toList] := by decide
        rw [e]
        refine List.Forall₂.cons ⟨by decide, by decide, by decide!⟩
          (List.Forall₂.cons (by unfold lineIs; decide)
            (List.Forall₂.cons ⟨by decide, by decide, by decide!⟩ List.Forall₂.nil)))
  refine ⟨m, total, hrun, ?_, ?_, ?_⟩
  · rw [htot]; decide!
  · rw [hlook]; decide!
  · rw [hlook]; decide!

/-! ## Order facts of float64 -/

theorem mantAt_zero (a : Bool) (own e : Int) : F64.mantAt a 0 own e = 0 := by
  cases a <;> simp [F64.mantAt]

theorem mantAt_not (a : Bool) (m : Nat) (own e : Int) :
    F64.mantAt (!a) m own e = - F64.mantAt a m own e := by
  cases a <;> simp [F64.mantAt]

theorem mantAt_nonneg (a : Bool) (m : Nat) (own e : Int) (h : a = false ∨ m = 0) :
    0 ≤ F64.mantAt a m own e := by
  rcases h with rfl | rfl
  · simp only [F64.mantAt, Bool.false_eq_true, if_false]
    exact Int.ofNat_nonneg _
  · rw [mantAt_zero]

theorem le_zero_fin (a : Bool) (m : Nat) (e : Int) :
    F64.le F64.zero (F64.fin a m e) = true ↔ (a = false ∨ m = 0) := by
  simp only [F64.le, F64.zero, decide_eq_true_eq, mantAt_zero]
  constructor
  · intro h
    cases a with
    | false => exact Or.inl rfl
    | true =>
      right
      simp only [F64.mantAt, if_true] at h
      have h2 : ((m * 2 ^ (e - min (-1074) e).toNat : Nat) : Int) = 0 := by omega
      have h3 : m * 2 ^ (e - min (-1074) e).toNat = 0 := by exact_mod_cast h2
      rcases Nat.mul_eq_zero.mp h3 with h4 | h4
      · exact h4
      · exact absurd h4 (by positivity)
  · exact mantAt_nonneg a m e _

theorem le_zero_cases (x : F64) (h : F64.le F64.zero x = true) :
    x = F64.inf false ∨ ∃ a m e, x = F64.fin a m e ∧ (a = false ∨ m = 0) := by
  cases x with
  | nan => simp [F64.le, F64.zero] at h
  | inf b =>
    left
    simp only [F64.le, F64.zero, Bool.not_eq_true'] at h
    rw [h]
  | fin a m e => exact Or.inr ⟨a, m, e, rfl, (le_zero_fin a m e).mp h⟩

theorem le_zero_round (n d : Nat) : F64.le F64.zero (F64.round false n d) = true := by
  rcases round_cases false n d with h | ⟨m, e, h⟩
  · rw [h]; rfl
  · rw [h]; exact (le_zero_fin false m e).mpr (Or.inl rfl)

theorem le_zero_ofScaled (z e : Int) (zneg : Bool) (hz : 0 ≤ z) :
    F64.le F64.zero (F64.ofScaled z e zneg) = true := by
  unfold F64.ofScaled
  split
  · exact (le_zero_fin zneg 0 _).mpr (Or.inr rfl)
  · have hneg : decide (z < 0) = false := by
      rw [decide_eq_false_iff_not]; omega
    rw [hneg]
    exact le_zero_round _ _

/-- The sum of two non-negative floats is non-negative (and not a NaN). -/
theorem le_zero_add (x y : F64) (hx : F64.le F64.zero x = true)
    (hy : F64.le F64.zero y = true) : F64.le F64.zero (F64.add x y) = true := by
  rcases le_zero_cases x hx with rfl | ⟨a, m, e, rfl, ha⟩
  · rcases le_zero_cases y hy with rfl | ⟨b, n, f, rfl, _⟩ <;> rfl
  · rcases le_zero_cases y hy with rfl | ⟨b, n, f, rfl, hb⟩
    · rfl
    · simp only [F64.add]
      apply le_zero_ofScaled
      have h1 := mantAt_nonneg a m e (min e f) ha
      have h2 := mantAt_nonneg b n f (min e f) hb
      omega

/-- The difference `y - x` is non-negative when `x` is finite and
`x <= y`. -/
theorem le_zero_sub (x y : F64) (hfin : x.isFinite = true)
    (hxy : F64.le x y = true) : F64.le F64.zero (F64.sub y x) = true := by
  cases x with
  | nan => simp [F64.isFinite] at hfin
  | inf a => simp [F64.isFinite] at hfin
  | fin a m e =>
    cases y with
    | nan => simp [F64.le] at hxy
    | inf b =>
      simp only [F64.le, Bool.not_eq_true'] at hxy
      subst hxy
      rfl
    | fin b n f =>
      simp only [F64.le, decide_eq_true_eq] at hxy
      simp only [F64.sub, F64.neg, F64.add]
      apply le_zero_ofScaled
      rw [mantAt_not, min_comm f e]
      omega

theorem size_halve (n : Nat) (h : n ≠ 0) : Nat.size n = Nat.size (n / 2) + 1 := by
  have hb : Nat.bit n.bodd n.div2 ≠ 0 := by rw [Nat.bit_decomp]; exact h
  have hs := Nat.size_bit hb
  rw [Nat.bit_decomp, Nat.div2_val] at hs
  exact hs

theorem bitLenAux_eq (fuel n acc : Nat) (h : n ≤ fuel) :
    F64.bitLenAux fuel n acc = acc + Nat.size n := by
  induction fuel generalizing n acc with
  | zero =>
    have hn : n = 0 := by omega
    subst hn
    simp [F64.bitLenAux]
  | succ fuel ih =>
    simp only [F64.bitLenAux]
    by_cases hn : n = 0
    · subst hn
      simp
    · rw [if_neg hn, ih (n / 2) (acc + 1) (by omega), size_halve n hn]
      omega

theorem bitLen_eq_size (n : Nat) : F64.bitLen n = Nat.size n := by
  unfold F64.bitLen
  rw [bitLenAux_eq n n 0 (Nat.le_refl n)]
  omega

theorem bitLen_mono (n d : Nat) (h : n ≤ d) : F64.bitLen n ≤ F64.bitLen d := by
  rw [bitLen_eq_size, bitLen_eq_size]
  exact Nat.size_le_size h

theorem expOf_le (n d : Nat) (h : n ≤ d) : F64.expOf n d ≤ -52 := by
  have hb := bitLen_mono n d h
  unfold F64.expOf
  simp only []
  split <;> omega

theorem rneDiv_le (x d k : Nat) (hd : 0 < d) (h : x ≤ k * d) :
    F64.rneDiv x d ≤ k := by
  have hq : x / d ≤ k := Nat.div_le_of_le_mul (by rw [Nat.mul_comm]; exact h)
  have hdm := Nat.div_add_mod x d
  unfold F64.rneDiv
  simp only []
  by_cases hqk : x / d = k
  · have hr : x % d = 0 := by
      rw [hqk] at hdm
      have := Nat.mul_comm d k
      omega
    rw [hr]
    simp [hd, hqk]
  · have hlt : x / d < k := by omega
    split_ifs <;> omega

/-- Rounding a ratio that is at most one gives at most one. -/
theorem round_le_one (n d : Nat) (hd : 0 < d) (h : n ≤ d) :
    F64.le (F64.round false n d) F64.one = true := by
  have he := expOf_le n d h
  unfold F64.round
  simp only []
  generalize F64.expOf n d = e at he
  have hden : F64.scaleDen d e = d := by
    have : e.toNat = 0 := by omega
    simp [F64.scaleDen, this]
  have hm : F64.rneDiv (F64.scaleNum n e) (F64.scaleDen d e) ≤ 2 ^ (-e).toNat := by
    rw [hden]
    apply rneDiv_le _ _ _ hd
    unfold F64.scaleNum
    rw [Nat.mul_comm]
    exact Nat.mul_le_mul_left _ h
  generalize F64.rneDiv (F64.scaleNum n e) (F64.scaleDen d e) = m at hm
  by_cases hm53 : m = 2 ^ 53
  · rw [if_pos hm53]
    have hj : 53 ≤ (-e).toNat := by
      rw [hm53] at hm
      exact (Nat.pow_le_pow_iff_right (by norm_num)).mp hm
    have he2 : ¬ (e + 1 > 971) := by omega
    rw [if_neg he2]
    simp only [F64.le, F64.one, F64.mantAt, Bool.false_eq_true, if_false,
      decide_eq_true_eq]
    have hmin : min (e + 1) (-52) = e + 1 := by omega
    rw [hmin]
    have h0 : (e + 1 - (e + 1)).toNat = 0 := by omega
    rw [h0]
    norm_cast
    simp only [pow_zero, mul_one]
    exact Nat.le_mul_of_pos_right _ (by positivity)
  · rw [if_neg hm53]
    have he2 : ¬ (e > 971) := by omega
    rw [if_neg he2]
    simp only [F64.le, F64.one, F64.mantAt, Bool.false_eq_true, if_false,
      decide_eq_true_eq]
    have hmin : min e (-52) = e := by omega
    rw [hmin]
    have h0 : (e - e).toNat = 0 := by omega
    rw [h0]
    norm_cast
    simp only [pow_zero, mul_one]
    have hsplit : (-e).toNat = 52 + (-52 - e).toNat := by omega
    rw [hsplit, pow_add] at hm
    exact hm

/-- The quotient `x / y` lies in `[0, 1]` when `x` is finite and
`0 <= x <= y`, `0 < y`. -/
theorem div_unit (x y : F64) (hfin : x.isFinite = true)
    (hx : F64.le F64.zero x = true) (hxy : F64.le x y = true)
    (hy : F64.lt F64.zero y = true) :
    F64.le F64.zero (F64.div x y) = true ∧ F64.le (F64.div x y) F64.one = true := by
  cases x with
  | nan => simp [F64.isFinite] at hfin
  | inf a => simp [F64.isFinite] at hfin
  | fin a m e =>
    have ha := (le_zero_fin a m e).mp hx
    cases y with
    | nan => simp [F64.le] at hxy
    | inf b =>
      simp only [F64.le, Bool.not_eq_true'] at hxy
      subst hxy
      simp only [F64.div]
      refine ⟨(le_zero_fin _ 0 _).mpr (Or.inr rfl), ?_⟩
      simp only [F64.le, F64.one, mantAt_zero, decide_eq_true_eq]
      exact mantAt_nonneg false _ _ _ (Or.inl rfl)
    | fin b n f =>
      simp only [F64.lt, Bool.and_eq_true, Bool.not_eq_true'] at hy
      have hb := (le_zero_fin b n f).mp hy.1
      have hn : n ≠ 0 := by
        rintro rfl
        have h2 := hy.2
        simp only [F64.le, F64.zero, mantAt_zero, decide_eq_false_iff_not] at h2
        exact h2 (Int.le_refl 0)
      have hbf : b = false := by
        rcases hb with h | h
        · exact h
        · exact absurd h hn
      subst hbf
      simp only [F64.div, if_neg hn]
      by_cases hm0 : m = 0
      · rw [if_pos hm0]
        refine ⟨(le_zero_fin _ 0 _).mpr (Or.inr rfl), ?_⟩
        simp only [F64.le, F64.one, mantAt_zero, decide_eq_true_eq]
        exact mantAt_nonneg false _ _ _ (Or.inl rfl)
      · rw [if_neg hm0]
        have haf : a = false := by
          rcases ha with h | h
          · exact h
          · exact absurd h hm0
        subst haf
        simp only [Bool.xor_false]
        refine ⟨le_zero_round _ _, ?_⟩
        apply round_le_one
        · unfold F64.scaleDen
          exact Nat.mul_pos (Nat.pos_of_ne_zero hn) (by positivity)
        · simp only [F64.le, F64.mantAt, Bool.false_eq_true, if_false,
            decide_eq_true_eq] at hxy
          have e1 : (e - min e f).toNat = (-(f - e)).toNat := by omega
          have e2 : (f - min e f).toNat = (f - e).toNat := by omega
          rw [e1, e2] at hxy
          unfold F64.scaleNum F64.scaleDen
          exact_mod_cast hxy

/-! ## C8 -/

theorem addBoard_ok_inv (st st1 : GPUMap × F64) (d : GoString)
    (h : addBoard st d = Except.ok st1) :
    ∃ b t tok rest, strings.Split d ':' = b :: t :: tok :: rest ∧
      st1 = (GPUMap.addTo st.1 t (strconv.ParseFloat tok).1,
        F64.add st.2 (strconv.ParseFloat tok).1) := by
  rcases hs : strings.Split d ':' with _ | ⟨b, _ | ⟨t, _ | ⟨tok, rest⟩⟩⟩
  · simp [addBoard, hs, index] at h
  · simp [addBoard, hs, index] at h
  · simp [addBoard, hs, index] at h
  · refine ⟨b, t, tok, rest, rfl, ?_⟩
    rw [addBoard_of_split st d b t tok rest hs] at h
    exact (Except.ok.inj h).symm

theorem forLines_total_nonneg
    (body : GPUMap × F64 → GoString → Except Crash (GPUMap × F64))
    (lines : List GoString)
    (hbody : ∀ line ∈ lines, ∀ st st1, body st line = Except.ok st1 →
      F64.le F64.zero st.2 = true → F64.le F64.zero st1.2 = true)
    (st st1 : GPUMap × F64) (h : forLines body lines st = Except.ok st1)
    (h0 : F64.le F64.zero st.2 = true) : F64.le F64.zero st1.2 = true := by
  induction lines generalizing st with
  | nil =>
    simp only [forLines] at h
    rw [← Except.ok.inj h]
    exact h0
  | cons l ls ih =>
    simp only [forLines] at h
    cases hb : body st l with
    | error c => simp [hb] at h
    | ok st2 =>
      simp only [hb] at h
      exact ih (fun line hl => hbody line (List.mem_cons_of_mem _ hl)) st2 h
        (hbody l (List.mem_cons_self _ _) st st2 hb h0)

theorem allocatedLine_nonneg (line : GoString)
    (htok : ∀ t tok, allocatedReads line t tok →
      F64.le F64.zero (strconv.ParseFloat tok).1 = true)
    (st st1 : GPUMap × F64) (h : allocatedLine st line = Except.ok st1)
    (h0 : F64.le F64.zero st.2 = true) : F64.le F64.zero st1.2 = true := by
  simp only [allocatedLine] at h
  by_cases hp : strings.HasPrefix (strings.Trim line dquote) boardSentinel = true
  · rw [if_pos hp] at h
    obtain ⟨b, t, tok, rest, hs, rfl⟩ := addBoard_ok_inv st st1 _ h
    exact le_zero_add _ _ h0 (htok t tok ⟨hp, b, rest, hs⟩)
  · rw [if_neg hp] at h
    rw [← Except.ok.inj h]
    exact h0

theorem totalLine_nonneg (line : GoString)
    (htok : ∀ t tok, totalReads line t tok →
      F64.le F64.zero (strconv.ParseFloat tok).1 = true)
    (st st1 : GPUMap × F64) (h : totalLine st line = Except.ok st1)
    (h0 : F64.le F64.zero st.2 = true) : F64.le F64.zero st1.2 = true := by
  rw [totalLine_eq] at h
  cases hd : countedDescriptor line with
  | none =>
    simp only [hd] at h
    rw [← Except.ok.inj h]
    exact h0
  | some d =>
    simp only [hd] at h
    obtain ⟨b, t, tok, rest, hs, rfl⟩ := addBoard_ok_inv st st1 _ h
    exact le_zero_add _ _ h0 (htok t tok ⟨d, hd, b, rest, hs⟩)

/-- C8 as stated fails.  With one board of 1 GPU in the inventory and a job
holding 2, idle is `-1` and utilization is `2` although total is positive;
with a job count of `-1`, alloc is `-1`. -/
theorem C8_counterexample_negative_idle :
    (∃ gm, ParseGPUsMetrics
        (fixedSys "node1 board:gpu:1".toList "board:gpu:2".toList)
        localCluster () = Except.ok (gm, ()) ∧
      F64.lt F64.zero gm.total = true ∧
      F64.le F64.zero gm.idle = false ∧
      F64.le gm.utilization F64.one = false) ∧
    (∃ gm, ParseGPUsMetrics
        (fixedSys "node1 board:gpu:1".toList "board:gpu:-1".toList)
        localCluster () = Except.ok (gm, ()) ∧
      F64.le F64.zero gm.alloc = false) := by
  refine ⟨⟨metricsOfTotals (F64.ofNat 1) (F64.ofNat 2), ?_, ?_, ?_, ?_⟩,
    ⟨metricsOfTotals (F64.ofNat 1) (F64.neg (F64.ofNat 1)), ?_, ?_⟩⟩ <;> decide!

/-- C8 amended: when every numeric token that the parsers read is a
non-negative number (an infinity allowed, a NaN not), the snapshot has
alloc >= 0 and total >= 0; when moreover alloc is finite and
alloc <= total, it has idle >= 0 and, if total is positive, its utilization
lies in [0, 1]. -/
theorem C8_nonnegative_counts {W : Type} (sys : SystemRun W)
    (cluster : ClusterInfo) (w w1 w2 : W) (inv acct : GoString)
    (mt ma : GPUMap) (total alloc : F64)
    (hinv : sys "sinfo".toList (sinfoArgs cluster) w = (Except.ok inv, w1))
    (hacct : sys "sacct".toList (sacctArgs cluster) w1 = (Except.ok acct, w2))
    (ht : totalOfOutput inv = Except.ok (mt, total))
    (ha : allocatedOfOutput acct = Except.ok (ma, alloc))
    (hti : ∀ line ∈ strings.Split inv newline, ∀ t tok, totalReads line t tok →
      F64.le F64.zero (strconv.ParseFloat tok).1 = true)
    (hai : ∀ line ∈ strings.Split acct newline, ∀ t tok,
      allocatedReads line t tok →
      F64.le F64.zero (strconv.ParseFloat tok).1 = true) :
    ∃ gm, ParseGPUsMetrics sys cluster w = Except.ok (gm, w2) ∧
      F64.le F64.zero gm.alloc = true ∧ F64.le F64.zero gm.total = true ∧
      (gm.alloc.isFinite = true → F64.le gm.alloc gm.total = true →
        F64.le F64.zero gm.idle = true ∧
        (F64.lt F64.zero gm.total = true →
          F64.le F64.zero gm.utilization = true ∧
          F64.le gm.utilization F64.one = true)) := by
  have halloc : F64.le F64.zero alloc = true := by
    rw [allocatedOfOutput_eq_forLines] at ha
    exact forLines_total_nonneg allocatedLine _
      (fun line hl st st1 => allocatedLine_nonneg line (hai line hl) st st1)
      _ _ ha (by decide)
  have htotal : F64.le F64.zero total = true := by
    rw [totalOfOutput_eq_forLines] at ht
    exact forLines_total_nonneg totalLine _
      (fun line hl st st1 => totalLine_nonneg line (hti line hl) st st1)
      _ _ ht (by decide)
  refine ⟨metricsOfTotals total alloc,
    ParseGPUsMetrics_of_outputs sys cluster w w1 w2 inv acct mt ma total alloc
      hinv hacct ht ha, halloc, htotal, ?_⟩
  intro hfin hle
  exact ⟨le_zero_sub alloc total hfin hle,
    fun hpos => div_unit alloc total hfin halloc hle hpos⟩

/-- C8 amended, on one board of 8 GPUs with 4 allocated. -/
theorem C8_nonnegative_counts_witness :
    ∃ gm, ParseGPUsMetrics
        (fixedSys "node1 board:gpu:8".toList "board:gpu:4".toList)
        localCluster () = Except.ok (gm, ()) ∧
      F64.le F64.zero gm.alloc = true ∧ F64.le F64.zero gm.total = true ∧
      F64.le F64.zero gm.idle = true ∧
      F64.le F64.zero gm.utilization = true ∧
      F64.le gm.utilization F64.one = true := by
  obtain ⟨gm, hrun, h1, h2, h3⟩ :=
    C8_nonnegative_counts
      (fixedSys "node1 board:gpu:8".toList "board:gpu:4".toList)
      localCluster () () () "node1 board:gpu:8".toList "board:gpu:4".toList
      [("gpu".toList, F64.ofNat 8)] [("gpu".toList, F64.ofNat 4)]
      (F64.ofNat 8) (F64.ofNat 4) (by decide) (by decide) (by decide!) (by decide!)
      (by
        intro line hl t tok hr
        have hsplit : strings.Split "node1 board:gpu:8".toList newline
            = ["node1 board:gpu:8".toList] := by decide
        rw [hsplit, List.mem_singleton] at hl
        subst hl
        obtain ⟨d, hd, b, rest, hs⟩ := hr
        have hcd : countedDescriptor "node1 board:gpu:8".toList
            = some "board:gpu:8".toList := by decide
        rw [hcd] at hd
        cases hd
        have hsp : strings.Split "board:gpu:8".toList ':'
            = ["board".toList, "gpu".toList, "8".toList] := by decide
        rw [hsp] at hs
        cases hs
        decide!)
      (by
        intro line hl t tok hr
        have hsplit : strings.Split "board:gpu:4".toList newline
            = ["board:gpu:4".toList] := by decide
        rw [hsplit, List.mem_singleton] at hl
        subst hl
        obtain ⟨_, b, rest, hs⟩ := hr
        have hsp : strings.Split (strings.Trim "board:gpu:4".toList dquote) ':'
            = ["board".toList, "gpu".toList, "4".toList] := by decide
        rw [hsp] at hs
        cases hs
        decide!)
  have hrun0 : ParseGPUsMetrics
      (fixedSys "node1 board:gpu:8".toList "board:gpu:4".toList)
      localCluster () = Except.ok (metricsOfTotals (F64.ofNat 8) (F64.ofNat 4), ()) := by
    decide!
  have hgm : gm = metricsOfTotals (F64.ofNat 8) (F64.ofNat 4) := by
    rw [hrun0] at hrun
    exact (Prod.mk.inj (Except.ok.inj hrun)).1.symm
  have h4 := h3 (by rw [hgm]; decide!) (by rw [hgm]; decide!)
  exact ⟨gm, hrun, h1, h2, h4.1, h4.2 (by rw [hgm]; decide!)⟩


end SlurmExporter
